import Mathlib

/-!
# Verification of the simagent UI automation core

A shallow embedding, in Lean 4, of the UI state-synchronization and
action-execution engine of `simagent` (main.go), together with proofs of the
specification's testable properties.

Modelling conventions, used throughout:

* Go strings are embedded as `List Char` (one entry per rune); `String.toList`
  produces literals.  Go's byte-wise string order is modelled character-wise.
* Go `float64` coordinates are embedded as `ℚ`.  `math.Hypot dx dy ≤ r`
  (with `r ≥ 0`) holds exactly when `dx^2 + dy^2 ≤ r^2`, so distance
  comparisons are carried out on squared distances, which are exact in `ℚ`.
* Go `int` is embedded as `Int` (no function below can overflow 64 bits on
  inputs the tool meets, and the claims are about comparisons, not wrapping).
* Fallible functions return `Except AppError` / `Option`.
* In-place loops over slices become explicit state passing (folds / recursion).
-/

/-- A Go string, one entry per rune. -/
abbrev GoStr := List Char

/-- Go `unicode.IsSpace`: the Unicode White_Space property (the exact code
points of Go's `unicode.White_Space` table). -/
def goIsSpace (c : Char) : Bool :=
  let n := c.toNat
  n == 0x09 || n == 0x0A || n == 0x0B || n == 0x0C || n == 0x0D || n == 0x20 ||
  n == 0x85 || n == 0xA0 || n == 0x1680 ||
  (0x2000 ≤ n && n ≤ 0x200A) ||
  n == 0x2028 || n == 0x2029 || n == 0x202F || n == 0x205F || n == 0x3000

/-- Go `strings.TrimSpace`: drop leading and trailing white space. -/
def trimSpace (s : GoStr) : GoStr :=
  ((s.dropWhile goIsSpace).reverse.dropWhile goIsSpace).reverse

/-- Case mapping on the ASCII range (the only case-carrying characters the
claims and the tool's role/label vocabulary use); non-ASCII characters are
left unchanged. -/
def lowerChar (c : Char) : Char :=
  if 'A' ≤ c && c ≤ 'Z' then Char.ofNat (c.toNat + 32) else c

/-- Go `strings.ToLower` (ASCII-range case mapping, see `lowerChar`). -/
def toLower (s : GoStr) : GoStr := s.map lowerChar

/-- Go `strings.EqualFold` (on the ASCII case range this is exactly equality
of the lowered strings). -/
def equalFold (a b : GoStr) : Bool := toLower a == toLower b

/-- main.go `isIgnoredCompareRune`: `unicode.IsSpace(r)`. -/
def isIgnoredCompareRune (r : Char) : Bool := goIsSpace r

/-- main.go `comparableRunesWithMap`, forward loop with absolute index `i`:
skip ignored runes, record each retained rune and its original index. -/
def comparableAux : Nat → GoStr → GoStr × List Nat
  | _, [] => ([], [])
  | i, r :: rs =>
    let rest := comparableAux (i + 1) rs
    if isIgnoredCompareRune r then rest else (r :: rest.1, i :: rest.2)

/-- main.go `comparableRunesWithMap` (the loop starts at index 0). -/
def comparableRunesWithMap (runes : GoStr) : GoStr × List Nat :=
  comparableAux 0 runes

/-- The source's pointwise loop `for i < len(obs): obs[i] == int[i]`, run
after the guard `len(obs) ≤ len(int)`; as a recursion over both lists. -/
def runesMatch : GoStr → GoStr → Bool
  | [], _ => true
  | _ :: _, [] => false
  | a :: as, b :: bs => a == b && runesMatch as bs

/-- main.go `typedMissingSuffix`: whitespace-insensitive comparison of the
intended and observed text; on a strict prefix, the unstripped intended text
from the original index mapped from the first unmatched stripped position.
The source's locals `intendedComparable`/`observedComparable`/`start` are
inlined; `start < 0` of the source is vacuous over `Nat` indices. -/
def typedMissingSuffix (intended observed : GoStr) : GoStr × Bool :=
  if (comparableRunesWithMap intended).1.length <
      (comparableRunesWithMap observed).1.length then ([], false)
  else if ¬ runesMatch (comparableRunesWithMap observed).1
      (comparableRunesWithMap intended).1 then ([], false)
  else if (comparableRunesWithMap observed).1.length =
      (comparableRunesWithMap intended).1.length then ([], true)
  else if intended.length <
      (comparableRunesWithMap intended).2.getD
        (comparableRunesWithMap observed).1.length 0 then ([], false)
  else
    (intended.drop ((comparableRunesWithMap intended).2.getD
      (comparableRunesWithMap observed).1.length 0), true)

/-- Specification-side form of the whitespace stripping: keep exactly the
runes `comparableRunesWithMap` keeps. -/
def stripWS (s : GoStr) : GoStr := s.filter (fun r => ! isIgnoredCompareRune r)

lemma comparableAux_cons_ignored {r : Char} (hr : isIgnoredCompareRune r = true)
    (i : Nat) (rs : GoStr) : comparableAux i (r :: rs) = comparableAux (i + 1) rs := by
  simp [comparableAux, hr]

lemma comparableAux_cons_kept {r : Char} (hr : ¬ isIgnoredCompareRune r = true)
    (i : Nat) (rs : GoStr) : comparableAux i (r :: rs) =
      (r :: (comparableAux (i + 1) rs).1, i :: (comparableAux (i + 1) rs).2) := by
  simp [comparableAux, hr]

lemma comparableAux_fst (l : GoStr) : ∀ i, (comparableAux i l).1 = stripWS l := by
  induction l with
  | nil => intro i; rfl
  | cons r rs ih =>
    intro i
    by_cases hr : isIgnoredCompareRune r = true
    · rw [comparableAux_cons_ignored hr, ih (i + 1)]
      simp [stripWS, List.filter_cons, hr]
    · rw [comparableAux_cons_kept hr]
      show r :: (comparableAux (i + 1) rs).1 = stripWS (r :: rs)
      rw [ih (i + 1)]
      simp [stripWS, List.filter_cons, hr]

lemma comparableAux_len (l : GoStr) :
    ∀ i, (comparableAux i l).2.length = (comparableAux i l).1.length := by
  induction l with
  | nil => intro i; rfl
  | cons r rs ih =>
    intro i
    by_cases hr : isIgnoredCompareRune r = true
    · rw [comparableAux_cons_ignored hr]; exact ih (i + 1)
    · rw [comparableAux_cons_kept hr]
      simpa using ih (i + 1)

lemma comparableAux_map_spec (l : GoStr) : ∀ i k, k < (comparableAux i l).2.length →
    ∃ j, (comparableAux i l).2.getD k 0 = i + j ∧ j < l.length ∧
      stripWS (l.drop j) = (comparableAux i l).1.drop k := by
  induction l with
  | nil => intro i k h; simp [comparableAux] at h
  | cons r rs ih =>
    intro i k hk
    by_cases hr : isIgnoredCompareRune r = true
    · rw [comparableAux_cons_ignored hr] at hk ⊢
      obtain ⟨j, hj1, hj2, hj3⟩ := ih (i + 1) k hk
      refine ⟨j + 1, by rw [hj1]; omega, by simp only [List.length_cons]; omega, ?_⟩
      simpa [List.drop_succ_cons] using hj3
    · rw [comparableAux_cons_kept hr] at hk ⊢
      cases k with
      | zero =>
        refine ⟨0, by simp, by simp, ?_⟩
        show stripWS ((r :: rs).drop 0) = (r :: (comparableAux (i + 1) rs).1).drop 0
        rw [List.drop_zero, List.drop_zero, comparableAux_fst]
        simp [stripWS, List.filter_cons, hr]
      | succ k2 =>
        simp only [List.length_cons, Nat.succ_lt_succ_iff] at hk
        obtain ⟨j, hj1, hj2, hj3⟩ := ih (i + 1) k2 hk
        refine ⟨j + 1, ?_, by simp only [List.length_cons]; omega, ?_⟩
        · rw [List.getD_cons_succ, hj1]; omega
        · show stripWS ((r :: rs).drop (j + 1)) =
            (r :: (comparableAux (i + 1) rs).1).drop (k2 + 1)
          simpa [List.drop_succ_cons] using hj3

lemma runesMatch_iff (a : GoStr) : ∀ b, runesMatch a b = true ↔ a = b.take a.length := by
  induction a with
  | nil => intro b; simp [runesMatch]
  | cons x xs ih =>
    intro b
    cases b with
    | nil => simp [runesMatch]
    | cons y ys => simp [runesMatch, List.take_cons, ih ys]

lemma cw_fst (s : GoStr) : (comparableRunesWithMap s).1 = stripWS s :=
  comparableAux_fst s 0

lemma cw_len (s : GoStr) : (comparableRunesWithMap s).2.length = (stripWS s).length := by
  rw [comparableRunesWithMap, comparableAux_len, comparableAux_fst]

lemma cw_map_spec (s : GoStr) (k : Nat) (hk : k < (stripWS s).length) :
    ∃ j, (comparableRunesWithMap s).2.getD k 0 = j ∧ j < s.length ∧
      stripWS (s.drop j) = (stripWS s).drop k := by
  obtain ⟨j, h1, h2, h3⟩ := comparableAux_map_spec s 0 k
    (by show k < (comparableRunesWithMap s).2.length; rw [cw_len]; exact hk)
  exact ⟨j, by simpa using h1, h2, by rw [h3, comparableAux_fst]⟩

/-- Branch-level characterization of `typedMissingSuffix` in terms of the
spec-side `stripWS`. -/
lemma typedMissingSuffix_char (intended observed : GoStr) :
    (¬ stripWS observed = (stripWS intended).take (stripWS observed).length →
      typedMissingSuffix intended observed = ([], false)) ∧
    (stripWS observed = stripWS intended →
      typedMissingSuffix intended observed = ([], true)) ∧
    (stripWS observed = (stripWS intended).take (stripWS observed).length →
     (stripWS observed).length < (stripWS intended).length →
      ∃ j, (comparableRunesWithMap intended).2.getD (stripWS observed).length 0 = j ∧
        j < intended.length ∧
        typedMissingSuffix intended observed = (intended.drop j, true) ∧
        stripWS (intended.drop j) = (stripWS intended).drop (stripWS observed).length) := by
  have e1 : (comparableRunesWithMap intended).1 = stripWS intended := cw_fst _
  have e2 : (comparableRunesWithMap observed).1 = stripWS observed := cw_fst _
  refine ⟨?_, ?_, ?_⟩
  · intro hnp
    by_cases hlen : (comparableRunesWithMap intended).1.length <
        (comparableRunesWithMap observed).1.length
    · rw [typedMissingSuffix, if_pos hlen]
    · have hm : ¬ runesMatch (comparableRunesWithMap observed).1
          (comparableRunesWithMap intended).1 = true := by
        rw [runesMatch_iff, e1, e2]; exact hnp
      rw [typedMissingSuffix, if_neg hlen, if_pos hm]
  · intro heq
    have hlen : ¬ (comparableRunesWithMap intended).1.length <
        (comparableRunesWithMap observed).1.length := by
      rw [e1, e2, heq]; omega
    have hm : runesMatch (comparableRunesWithMap observed).1
        (comparableRunesWithMap intended).1 = true := by
      rw [runesMatch_iff, e1, e2, heq]
      exact (List.take_length _).symm
    have hle : (comparableRunesWithMap observed).1.length =
        (comparableRunesWithMap intended).1.length := by
      rw [e1, e2, heq]
    rw [typedMissingSuffix, if_neg hlen, if_neg (by simp [hm]), if_pos hle]
  · intro hp hlt
    obtain ⟨j, hj0, hj1, hj2⟩ := cw_map_spec intended (stripWS observed).length hlt
    refine ⟨j, hj0, hj1, ?_, hj2⟩
    have hlen : ¬ (comparableRunesWithMap intended).1.length <
        (comparableRunesWithMap observed).1.length := by
      rw [e1, e2]; omega
    have hm : runesMatch (comparableRunesWithMap observed).1
        (comparableRunesWithMap intended).1 = true := by
      rw [runesMatch_iff, e1, e2]; exact hp
    have hne : ¬ (comparableRunesWithMap observed).1.length =
        (comparableRunesWithMap intended).1.length := by
      rw [e1, e2]; omega
    have hstart : (comparableRunesWithMap intended).2.getD
        (comparableRunesWithMap observed).1.length 0 = j := by
      rw [e2]; exact hj0
    have hguard : ¬ intended.length < (comparableRunesWithMap intended).2.getD
        (comparableRunesWithMap observed).1.length 0 := by
      rw [hstart]; omega
    rw [typedMissingSuffix, if_neg hlen, if_neg (by simp [hm]), if_neg hne,
      if_neg hguard, hstart]

/-- C1: `typedMissingSuffix` computes a whitespace-insensitive comparison:
it returns `(_, false)` exactly when the stripped observed string is not a
prefix of the stripped intended string, `([], true)` when the stripped
strings are equal, on a strict prefix the unstripped intended text from the
original index mapped from the first unmatched stripped position, and the
two concrete examples of the spec hold, the second one ignoring the extra
space. -/
theorem typedMissingSuffix_spec :
    (∀ intended observed : GoStr,
      ((typedMissingSuffix intended observed).2 = true ↔
        stripWS observed = (stripWS intended).take (stripWS observed).length) ∧
      (stripWS observed = stripWS intended →
        typedMissingSuffix intended observed = ([], true)) ∧
      (stripWS observed = (stripWS intended).take (stripWS observed).length →
       (stripWS observed).length < (stripWS intended).length →
        typedMissingSuffix intended observed =
          (intended.drop ((comparableRunesWithMap intended).2.getD
            (stripWS observed).length 0), true))) ∧
    typedMissingSuffix "090-0000-0000".toList "090-0000-00".toList =
      ("00".toList, true) ∧
    typedMissingSuffix "090-0000-0000".toList "090 -0000-00".toList =
      ("00".toList, true) := by
  refine ⟨?_, by decide, by decide⟩
  intro intended observed
  obtain ⟨hno, heq, hstrict⟩ := typedMissingSuffix_char intended observed
  refine ⟨⟨?_, ?_⟩, heq, ?_⟩
  · intro htrue
    by_contra hnp
    rw [hno hnp] at htrue
    simp at htrue
  · intro hp
    by_cases hlen : (stripWS observed).length < (stripWS intended).length
    · obtain ⟨j, _, _, hres, _⟩ := hstrict hp hlen
      rw [hres]
    · have hlenEq : (stripWS observed).length = (stripWS intended).length := by
        have := congrArg List.length hp
        simp at this
        omega
      have : stripWS observed = stripWS intended := by
        rw [hp, hlenEq, List.take_length]
      rw [heq this]
  · intro hp hlt
    obtain ⟨j, hj0, _, hres, _⟩ := hstrict hp hlt
    rw [hj0, hres]

/-- C9: whenever `typedMissingSuffix intended observed = (missing, true)`,
the stripped observed text followed by the stripped missing suffix is
exactly the stripped intended text, and the suffix is empty precisely when
the stripped strings already agree. -/
theorem typedMissingSuffix_repair : ∀ intended observed missing : GoStr,
    typedMissingSuffix intended observed = (missing, true) →
    stripWS observed ++ stripWS missing = stripWS intended ∧
    (missing = [] ↔ stripWS observed = stripWS intended) := by
  intro intended observed missing h
  obtain ⟨hno, heq, hstrict⟩ := typedMissingSuffix_char intended observed
  by_cases hp : stripWS observed = (stripWS intended).take (stripWS observed).length
  · by_cases he : stripWS observed = stripWS intended
    · rw [heq he] at h
      have hm : missing = [] := by
        have := congrArg Prod.fst h
        simpa using this.symm
      subst hm
      constructor
      · rw [show stripWS ([] : GoStr) = [] from rfl, List.append_nil]
        exact he
      · simp [he]
    · have hlen : (stripWS observed).length < (stripWS intended).length := by
        have hle := congrArg List.length hp
        simp at hle
        rcases Nat.lt_or_ge (stripWS observed).length (stripWS intended).length with h1 | h1
        · exact h1
        · exfalso
          apply he
          have : (stripWS observed).length = (stripWS intended).length := by omega
          rw [hp, this, List.take_length]
      obtain ⟨j, hj0, hj1, hres, hstrip⟩ := hstrict hp hlen
      rw [hres] at h
      have hm : missing = intended.drop j := by
        have := congrArg Prod.fst h
        simpa using this.symm
      subst hm
      constructor
      · rw [hstrip]
        nth_rewrite 1 [hp]
        exact List.take_append_drop _ _
      · constructor
        · intro hnil
          exfalso
          have : (intended.drop j).length = 0 := by rw [hnil]; rfl
          rw [List.length_drop] at this
          omega
        · intro he2
          exact absurd he2 he
  · rw [hno hp] at h
    have := congrArg Prod.snd h
    simp at this

/-- Witness for C9 at the spec's concrete example. -/
theorem typedMissingSuffix_repair_model :
    stripWS "090 -0000-00".toList ++ stripWS "00".toList =
      stripWS "090-0000-0000".toList ∧
    ("00".toList = ([] : GoStr) ↔
      stripWS "090 -0000-00".toList = stripWS "090-0000-0000".toList) :=
  typedMissingSuffix_repair "090-0000-0000".toList "090 -0000-00".toList
    "00".toList (by decide)

/-- main.go `FrameRect` (x, y, w, h in points plus the unit tag). -/
structure FrameRect where
  X : ℚ
  Y : ℚ
  W : ℚ
  H : ℚ
  Unit : GoStr
deriving Repr, DecidableEq, Inhabited

/-- main.go `FramePoint`. -/
structure FramePoint where
  X : ℚ
  Y : ℚ
  Unit : GoStr
deriving Repr, DecidableEq, Inhabited

/-- main.go `ElementSource`. -/
structure ElementSource where
  Tool : GoStr
  Method : GoStr
deriving Repr, DecidableEq, Inhabited

/-- main.go `Element` (the full struct of the UI engine, including the
unexported pre-sort discovery rank `order`). -/
structure Element where
  Index : Int
  ID : GoStr
  Role : GoStr
  Label : GoStr
  Value : GoStr
  NearbyLabel : GoStr
  Enabled : Bool
  Focused : Bool
  Visible : Bool
  Offscreen : Bool
  Frame : FrameRect
  Center : FramePoint
  Source : ElementSource
  order : Int
deriving Repr, DecidableEq, Inhabited

/-- main.go `AppError` (code and message; the structured `Details` field is
carried separately where a claim depends on it). -/
structure AppError where
  Code : String
  Message : String
deriving Repr, DecidableEq, Inhabited

/-- main.go `classifyVisibility`: geometric classification of an element
frame against the inferred screen rectangle. -/
def classifyVisibility (rect screen : FrameRect) : Bool × Bool :=
  if rect.W ≤ 0 ∨ rect.H ≤ 0 then (false, true)
  else if screen.W ≤ 0 ∨ screen.H ≤ 0 then (true, false)
  else if min (rect.X + rect.W) (screen.X + screen.W) ≤ max rect.X screen.X ∨
      min (rect.Y + rect.H) (screen.Y + screen.H) ≤ max rect.Y screen.Y then
    (false, true)
  else
    (true, decide (rect.X < screen.X ∨ rect.Y < screen.Y ∨
      screen.X + screen.W < rect.X + rect.W ∨ screen.Y + screen.H < rect.Y + rect.H))

/-- Spec-side: the frame lies fully inside the screen rectangle. -/
def rectInside (r s : FrameRect) : Prop :=
  s.X ≤ r.X ∧ s.Y ≤ r.Y ∧ r.X + r.W ≤ s.X + s.W ∧ r.Y + r.H ≤ s.Y + s.H

/-- Spec-side: the frame and the screen rectangle share a positive-area
intersection. -/
def rectOverlaps (r s : FrameRect) : Prop :=
  r.X < s.X + s.W ∧ s.X < r.X + r.W ∧ r.Y < s.Y + s.H ∧ s.Y < r.Y + r.H

/-- C4: with a (positive-area) inferred screen rectangle, visibility
classification returns `(true, false)` on a frame fully inside the screen,
`(true, true)` on a frame that overlaps the screen but sticks out,
`(false, true)` on a frame with no (positive-area) intersection, and
`(false, true)` on a degenerate frame.  (When no screen rectangle could be
inferred the source short-circuits to `(true, false)`: everything is treated
as fully visible — outside this claim's four cases.) -/
theorem classifyVisibility_spec (rect screen : FrameRect)
    (hw : 0 < screen.W) (hh : 0 < screen.H) :
    ((rect.W ≤ 0 ∨ rect.H ≤ 0) → classifyVisibility rect screen = (false, true)) ∧
    (0 < rect.W → 0 < rect.H →
      (rectInside rect screen → classifyVisibility rect screen = (true, false)) ∧
      (rectOverlaps rect screen → ¬ rectInside rect screen →
        classifyVisibility rect screen = (true, true)) ∧
      (¬ rectOverlaps rect screen → classifyVisibility rect screen = (false, true))) := by
  constructor
  · intro hdeg
    rw [classifyVisibility, if_pos hdeg]
  · intro hrw hrh
    have hnd : ¬ (rect.W ≤ 0 ∨ rect.H ≤ 0) := by push_neg; constructor <;> linarith
    have hns : ¬ (screen.W ≤ 0 ∨ screen.H ≤ 0) := by push_neg; constructor <;> linarith
    have hover : (¬ (min (rect.X + rect.W) (screen.X + screen.W) ≤ max rect.X screen.X ∨
        min (rect.Y + rect.H) (screen.Y + screen.H) ≤ max rect.Y screen.Y)) ↔
        rectOverlaps rect screen := by
      rw [rectOverlaps]
      constructor
      · intro h
        push_neg at h
        obtain ⟨h1, h2⟩ := h
        obtain ⟨h1a, h1b⟩ := max_lt_iff.mp h1
        obtain ⟨_, h1c⟩ := lt_min_iff.mp h1a
        obtain ⟨h1d, _⟩ := lt_min_iff.mp h1b
        obtain ⟨h2a, h2b⟩ := max_lt_iff.mp h2
        obtain ⟨_, h2c⟩ := lt_min_iff.mp h2a
        obtain ⟨h2d, _⟩ := lt_min_iff.mp h2b
        exact ⟨h1c, h1d, h2c, h2d⟩
      · rintro ⟨o1, o2, o3, o4⟩
        push_neg
        constructor <;> rw [max_lt_iff] <;> constructor <;> rw [lt_min_iff] <;>
          exact ⟨by linarith, by linarith⟩
    refine ⟨?_, ?_, ?_⟩
    · intro hin
      obtain ⟨i1, i2, i3, i4⟩ := hin
      have hov : rectOverlaps rect screen := ⟨by linarith, by linarith, by linarith, by linarith⟩
      rw [classifyVisibility, if_neg hnd, if_neg hns, if_neg (by rw [← hover] at hov; exact hov)]
      simp only [Prod.mk.injEq, true_and]
      rw [decide_eq_false_iff_not]
      push_neg
      exact ⟨by linarith, by linarith, by linarith, by linarith⟩
    · intro hov hnin
      rw [classifyVisibility, if_neg hnd, if_neg hns, if_neg (by rw [← hover] at hov; exact hov)]
      simp only [Prod.mk.injEq, true_and]
      rw [decide_eq_true_eq]
      rw [rectInside] at hnin
      push_neg at hnin
      by_contra hc
      push_neg at hc
      obtain ⟨c1, c2, c3, c4⟩ := hc
      have := hnin c1 c2 c3
      linarith
    · intro hnov
      rw [← hover, not_not] at hnov
      rw [classifyVisibility, if_neg hnd, if_neg hns, if_pos hnov]

/-- Witness for C4: a frame fully inside the screen classifies `(true, false)`,
one sticking out left classifies `(true, true)`, one beyond the right edge
classifies `(false, true)` (the unit tests' cases). -/
theorem classifyVisibility_spec_model :
    classifyVisibility ⟨10, 10, 20, 20, "pt".toList⟩ ⟨0, 0, 100, 100, "pt".toList⟩ =
      (true, false) := by
  have h := (classifyVisibility_spec ⟨10, 10, 20, 20, "pt".toList⟩
    ⟨0, 0, 100, 100, "pt".toList⟩ (by norm_num) (by norm_num)).2
    (by norm_num) (by norm_num)
  exact h.1 (by constructor <;> norm_num)

/-- Squared Euclidean distance of two centers.  The source compares
`math.Hypot dx dy ≤ 24`; over the reals that holds exactly when
`dx^2 + dy^2 ≤ 576`, which is the exact form used here. -/
def distSq (a b : FramePoint) : ℚ :=
  (a.X - b.X) * (a.X - b.X) + (a.Y - b.Y) * (a.Y - b.Y)

/-- main.go `canTrustFocus` loop with the `hasFocused` flag as explicit
state: a focused element is trusted when the target has no (trimmed) `ID`
and the element's center is within 24pt, or when the `ID`s agree; after the
loop the result is `!hasFocused`. -/
def canTrustFocusAux : List Element → Element → Bool → Bool
  | [], _, hasFocused => !hasFocused
  | e :: rest, target, hasFocused =>
    if e.Focused = false then canTrustFocusAux rest target hasFocused
    else if trimSpace target.ID = [] ∧ distSq e.Center target.Center ≤ 576 then true
    else if e.ID = target.ID then true
    else canTrustFocusAux rest target true

/-- main.go `canTrustFocus`. -/
def canTrustFocus (elements : List Element) (target : Element) : Bool :=
  canTrustFocusAux elements target false

lemma canTrustFocusAux_iff (target : Element) : ∀ (l : List Element) (b : Bool),
    canTrustFocusAux l target b = true ↔
    ((∃ e ∈ l, e.Focused = true ∧
        (e.ID = target.ID ∨
         (trimSpace target.ID = [] ∧ distSq e.Center target.Center ≤ 576))) ∨
     (b = false ∧ ∀ e ∈ l, e.Focused = false)) := by
  intro l
  induction l with
  | nil => intro b; cases b <;> simp [canTrustFocusAux]
  | cons e rest ih =>
    intro b
    by_cases hf : e.Focused = false
    · rw [show canTrustFocusAux (e :: rest) target b = canTrustFocusAux rest target b
        from by simp [canTrustFocusAux, hf], ih b]
      constructor
      · rintro (h | ⟨hb, hall⟩)
        · exact Or.inl (by obtain ⟨x, hx, hp⟩ := h; exact ⟨x, List.mem_cons_of_mem _ hx, hp⟩)
        · exact Or.inr ⟨hb, by
            intro x hx
            rcases List.mem_cons.mp hx with h1 | h1
            · rw [h1]; exact hf
            · exact hall x h1⟩
      · rintro (⟨x, hx, hfoc, hp⟩ | ⟨hb, hall⟩)
        · rcases List.mem_cons.mp hx with h1 | h1
          · exfalso; rw [h1] at hfoc; rw [hfoc] at hf; simp at hf
          · exact Or.inl ⟨x, h1, hfoc, hp⟩
        · exact Or.inr ⟨hb, fun x hx => hall x (List.mem_cons_of_mem _ hx)⟩
    · have hft : e.Focused = true := by simpa using hf
      by_cases h1 : trimSpace target.ID = [] ∧ distSq e.Center target.Center ≤ 576
      · rw [show canTrustFocusAux (e :: rest) target b = true
          from by simp [canTrustFocusAux, hf, h1]]
        simp only [true_iff]
        exact Or.inl ⟨e, List.mem_cons_self _ _, hft, Or.inr h1⟩
      · by_cases h2 : e.ID = target.ID
        · rw [show canTrustFocusAux (e :: rest) target b = true
            from by simp [canTrustFocusAux, hf, h1, h2]]
          simp only [true_iff]
          exact Or.inl ⟨e, List.mem_cons_self _ _, hft, Or.inl h2⟩
        · rw [show canTrustFocusAux (e :: rest) target b = canTrustFocusAux rest target true
            from by simp [canTrustFocusAux, hf, h1, h2], ih true]
          constructor
          · rintro (⟨x, hx, hp⟩ | ⟨hb, _⟩)
            · exact Or.inl ⟨x, List.mem_cons_of_mem _ hx, hp⟩
            · exact absurd hb (by simp)
          · rintro (⟨x, hx, hfoc, hp⟩ | ⟨_, hall⟩)
            · rcases List.mem_cons.mp hx with hm | hm
              · exfalso
                rw [hm] at hp
                rcases hp with hp | hp
                · exact h2 hp
                · exact h1 hp
              · exact Or.inl ⟨x, hm, hfoc, hp⟩
            · exfalso
              have := hall e (List.mem_cons_self _ _)
              rw [this] at hft
              exact Bool.false_ne_true hft

/-- C3: after a focus tap and re-snapshot, if some element reports
`Focused = true` the focus is trusted exactly when a focused element matches
the target by `ID`, or — when the target has no (whitespace-trimmed) `ID` —
a focused element's center lies within 24pt of the target's original center
(compared as squared distance ≤ 576); when no element reports focus, trust
is granted unconditionally. -/
theorem canTrustFocus_spec : ∀ (elements : List Element) (target : Element),
    canTrustFocus elements target = true ↔
      ((∀ e ∈ elements, e.Focused = false) ∨
       (∃ e ∈ elements, e.Focused = true ∧
         (e.ID = target.ID ∨
          (trimSpace target.ID = [] ∧ distSq e.Center target.Center ≤ 576)))) := by
  intro elements target
  rw [canTrustFocus, canTrustFocusAux_iff]
  constructor
  · rintro (⟨x, hx, hp⟩ | ⟨_, hall⟩)
    · exact Or.inr ⟨x, hx, hp⟩
    · exact Or.inl hall
  · rintro (hall | ⟨x, hx, hp⟩)
    · exact Or.inr ⟨rfl, hall⟩
    · exact Or.inl ⟨x, hx, hp⟩

/-- Go `strings.HasPrefix` on rune lists (the pattern first). -/
def leadingMatch : GoStr → GoStr → Bool
  | [], _ => true
  | _ :: _, [] => false
  | p :: ps, c :: cs => p == c && leadingMatch ps cs

/-- Go `strings.Contains s pat`: some tail of `s` starts with `pat`. -/
def containsRunes : GoStr → GoStr → Bool
  | [], pat => pat.isEmpty
  | c :: rest, pat => leadingMatch pat (c :: rest) || containsRunes rest pat

/-- main.go `interactiveRoleHints`. -/
def interactiveRoleHints : List GoStr :=
  ["button", "textfield", "securetextfield", "switch", "slider", "cell", "link"].map
    String.toList

/-- main.go `isInteractiveRole`: the lower-cased, trimmed role contains one
of the interactive hints. -/
def isInteractiveRole (role : GoStr) : Bool :=
  if toLower (trimSpace role) = [] then false
  else interactiveRoleHints.any (fun hint => containsRunes (toLower (trimSpace role)) hint)

/-- main.go `elementText`: trimmed label, value, nearby label and role,
joined by single spaces, lower-cased. -/
def elementText (elem : Element) : GoStr :=
  toLower (List.intercalate " ".toList
    [trimSpace elem.Label, trimSpace elem.Value, trimSpace elem.NearbyLabel,
     trimSpace elem.Role])

/-- The candidate filter and score accumulation of main.go
`pickElementByText` for one element (`none` = the source's `continue`):
disabled elements are skipped; a label query with no exact hit and a
contains query with no substring hit are skipped; otherwise the score is
the sum of the hit and quality signals. -/
def textScore (exactLabel containsQ : GoStr) (elem : Element) : Option Nat :=
  if elem.Enabled = false then none
  else
    let hitLabel := !exactLabel.isEmpty && equalFold (trimSpace elem.Label) exactLabel
    let hitValue := !exactLabel.isEmpty && equalFold (trimSpace elem.Value) exactLabel
    let hitNearby := !exactLabel.isEmpty && equalFold (trimSpace elem.NearbyLabel) exactLabel
    if !exactLabel.isEmpty && !(hitLabel || hitValue || hitNearby) then none
    else
      let hitSub := !containsQ.isEmpty && containsRunes (toLower (elementText elem)) containsQ
      if !containsQ.isEmpty && !hitSub then none
      else some
        ((if hitLabel then 90 else 0) + (if hitValue then 75 else 0) +
         (if hitNearby then 55 else 0) + (if hitSub then 45 else 0) +
         (if elem.Visible then 24 else 0) + (if !elem.Offscreen then 10 else 0) +
         (if isInteractiveRole elem.Role then 15 else 0) +
         (if !(trimSpace elem.Label).isEmpty then 8 else 0))

/-- One comparison step of the selection in main.go `pickElementByText`:
the source sorts candidates by score descending, ties by ascending `Index`,
and returns `candidates[0]`; folding this step over the candidate list
computes exactly such a front element. -/
def pickStep (best d : Element × Nat) : Element × Nat :=
  if best.2 < d.2 ∨ (d.2 = best.2 ∧ d.1.Index < best.1.Index) then d else best

/-- main.go `pickElementByText`. -/
def pickElementByText (elements : List Element) (exactLabel containsQ : GoStr) :
    Except AppError Element :=
  match elements.filterMap (fun e =>
      (textScore (toLower (trimSpace exactLabel)) (toLower (trimSpace containsQ)) e).map
        (fun s => (e, s))) with
  | [] => .error ⟨"ELEMENT_NOT_FOUND",
      if toLower (trimSpace exactLabel) ≠ [] then
        "element label not found: " ++ String.mk (toLower (trimSpace exactLabel))
      else "element text not found: " ++ String.mk (toLower (trimSpace containsQ))⟩
  | c :: cs => .ok (cs.foldl pickStep c).1

/-- Spec-side: some exact-match signal hits for a label query. -/
def exactHit (q : GoStr) (e : Element) : Bool :=
  equalFold (trimSpace e.Label) q || equalFold (trimSpace e.Value) q ||
    equalFold (trimSpace e.NearbyLabel) q

/-- Spec-side: the substring signal of a contains query. -/
def subHit (q : GoStr) (e : Element) : Bool :=
  containsRunes (toLower (elementText e)) q

/-- The scoring table as the specification states it: +90 exact label, +75
exact value, +55 exact nearby label (label query), +45 substring hit
(contains query), +24 visible, +10 not offscreen, +15 interactive role, +8
non-empty label. -/
def specScore (lq cq : GoStr) (e : Element) : Nat :=
  (if lq ≠ [] ∧ equalFold (trimSpace e.Label) lq = true then 90 else 0) +
  (if lq ≠ [] ∧ equalFold (trimSpace e.Value) lq = true then 75 else 0) +
  (if lq ≠ [] ∧ equalFold (trimSpace e.NearbyLabel) lq = true then 55 else 0) +
  (if cq ≠ [] ∧ subHit cq e = true then 45 else 0) +
  (if e.Visible = true then 24 else 0) +
  (if e.Offscreen = false then 10 else 0) +
  (if isInteractiveRole e.Role = true then 15 else 0) +
  (if trimSpace e.Label ≠ [] then 8 else 0)

/-- main.go `pickElement`: index lookup first (the id, if any, is ignored
when an index ≥ 0 is supplied), then id lookup, else a usage error. -/
def pickElement (elements : List Element) (index : Int) (id : GoStr) :
    Except AppError Element :=
  if 0 ≤ index then
    match elements.find? (fun e => e.Index == index) with
    | some e => .ok e
    | none => .error ⟨"ELEMENT_NOT_FOUND", "element index not found: " ++ toString index⟩
  else if id ≠ [] then
    match elements.find? (fun e => e.ID == id) with
    | some e => .ok e
    | none => .error ⟨"ELEMENT_NOT_FOUND", "element id not found: " ++ String.mk id⟩
  else .error ⟨"USAGE", "index or id is required"⟩

/-- main.go `countElementSelectors`. -/
def countElementSelectors (index : Int) (id label contains : GoStr) : Nat :=
  (if 0 ≤ index then 1 else 0) + (if trimSpace id ≠ [] then 1 else 0) +
  (if trimSpace label ≠ [] then 1 else 0) + (if trimSpace contains ≠ [] then 1 else 0)

/-- main.go `pickElementBySelectors`: the selector fields are trimmed, then
exactly one of them must be set. -/
def pickElementBySelectors (elements : List Element) (index : Int)
    (id label contains : GoStr) : Except AppError Element :=
  match countElementSelectors index (trimSpace id) (trimSpace label) (trimSpace contains) with
  | 0 => .error ⟨"USAGE", "selector is required: --index|--id|--label|--contains"⟩
  | 1 =>
    if 0 ≤ index ∨ trimSpace id ≠ [] then pickElement elements index (trimSpace id)
    else pickElementByText elements (trimSpace label) (trimSpace contains)
  | _ => .error ⟨"USAGE", "choose only one selector: --index|--id|--label|--contains"⟩

/-- The element-lookup part of the `swipe` subcommand of main.go `cmdUI`:
when an index or an id is supplied, the swipe start point is the center of
the element found by `pickElement` (no single-selector check is made);
otherwise the default start point is kept. -/
def swipeTargetStart (elements : List Element) (index : Int) (id : GoStr)
    (startX startY : ℚ) : Except AppError (ℚ × ℚ) :=
  if 0 ≤ index ∨ id ≠ [] then
    match pickElement elements index id with
    | .ok e => .ok (e.Center.X, e.Center.Y)
    | .error err => .error err
  else .ok (startX, startY)

lemma all_dropWhile (p : Char → Bool) (l : GoStr) : (l.dropWhile p).all p = l.all p := by
  induction l with
  | nil => rfl
  | cons x xs ih =>
    by_cases h : p x = true
    · rw [List.dropWhile_cons_of_pos h, ih, List.all_cons, h, Bool.true_and]
    · rw [List.dropWhile_cons_of_neg h]

lemma trimSpace_nil_iff (s : GoStr) : trimSpace s = [] ↔ s.all goIsSpace = true := by
  rw [trimSpace, List.reverse_eq_nil_iff, List.dropWhile_eq_nil_iff]
  constructor
  · intro h
    rw [← all_dropWhile goIsSpace s, List.all_eq_true]
    intro x hx
    exact h x (List.mem_reverse.mpr hx)
  · intro h x hx
    have h2 : (s.dropWhile goIsSpace).all goIsSpace = true := by
      rw [all_dropWhile]; exact h
    exact List.all_eq_true.mp h2 x (List.mem_reverse.mp hx)

lemma all_trimSpace (s : GoStr) : (trimSpace s).all goIsSpace = s.all goIsSpace := by
  rw [trimSpace, List.all_reverse, all_dropWhile, List.all_reverse, all_dropWhile]

lemma trimSpace_trimSpace_nil (s : GoStr) :
    trimSpace (trimSpace s) = [] ↔ trimSpace s = [] := by
  rw [trimSpace_nil_iff, all_trimSpace, trimSpace_nil_iff]

lemma countElementSelectors_trim (index : Int) (id label contains : GoStr) :
    countElementSelectors index (trimSpace id) (trimSpace label) (trimSpace contains) =
      countElementSelectors index id label contains := by
  simp only [countElementSelectors, ne_eq, trimSpace_trimSpace_nil]

/-- Shared helper: more than one selector set makes `pickElementBySelectors`
fail with the "choose only one selector" usage error. -/
lemma selectors_usage (elements : List Element) (index : Int)
    (id label contains : GoStr)
    (h : 2 ≤ countElementSelectors index id label contains) :
    pickElementBySelectors elements index id label contains =
      Except.error ⟨"USAGE", "choose only one selector: --index|--id|--label|--contains"⟩ := by
  rw [pickElementBySelectors, countElementSelectors_trim]
  obtain ⟨m, hm⟩ : ∃ m, countElementSelectors index id label contains =
      Nat.succ (Nat.succ m) :=
    ⟨countElementSelectors index id label contains - 2, by omega⟩
  rw [hm]
  rfl

/-- C7: a selector query in which more than one of index / id / label /
contains is set (after trimming; a supplied index means `index ≥ 0`) is
rejected with the `USAGE` error "choose only one selector", no element being
resolved; in particular a query with both label and contains set. -/
theorem pickElementBySelectors_spec :
    (∀ (elements : List Element) (index : Int) (id label contains : GoStr),
      2 ≤ countElementSelectors index id label contains →
      pickElementBySelectors elements index id label contains =
        Except.error ⟨"USAGE", "choose only one selector: --index|--id|--label|--contains"⟩) ∧
    (∀ (elements : List Element) (label contains : GoStr),
      trimSpace label ≠ [] → trimSpace contains ≠ [] →
      pickElementBySelectors elements (-1) [] label contains =
        Except.error ⟨"USAGE", "choose only one selector: --index|--id|--label|--contains"⟩) := by
  refine ⟨fun elements index id label contains h => selectors_usage _ _ _ _ _ h,
    fun elements label contains h1 h2 => selectors_usage _ _ _ _ _ ?_⟩
  have e0 : trimSpace ([] : GoStr) = [] := rfl
  simp [countElementSelectors, e0, h1, h2]

/-- Witness for C7: both label and contains set on one query. -/
theorem pickElementBySelectors_model :
    pickElementBySelectors [] (-1) [] "Save".toList "Sav".toList =
      Except.error ⟨"USAGE", "choose only one selector: --index|--id|--label|--contains"⟩ :=
  pickElementBySelectors_spec.2 [] "Save".toList "Sav".toList (by decide) (by decide)

/-- C10: swipe element lookup does not enforce the single-selector rule:
with both an index and an id supplied, `pickElement` resolves by index and
ignores the id entirely — even when no element carries that id the swipe
lookup succeeds with the indexed element's center and raises no error —
while the tap/type/clear path (`pickElementBySelectors`) rejects the same
arguments with the `USAGE` error. -/
theorem pickElement_swipe_spec :
    ∀ (elements : List Element) (index : Int) (id : GoStr) (startX startY : ℚ)
      (e : Element),
    0 ≤ index →
    elements.find? (fun el => el.Index == index) = some e →
    (∀ el ∈ elements, el.ID ≠ id) →
    trimSpace id ≠ [] →
    pickElement elements index id = Except.ok e ∧
    swipeTargetStart elements index id startX startY =
      Except.ok (e.Center.X, e.Center.Y) ∧
    pickElementBySelectors elements index id [] [] =
      Except.error ⟨"USAGE", "choose only one selector: --index|--id|--label|--contains"⟩ := by
  intro elements index id startX startY e hidx hfind _ htrim
  have hpick : pickElement elements index id = Except.ok e := by
    rw [pickElement, if_pos hidx, hfind]
  refine ⟨hpick, ?_, ?_⟩
  · rw [swipeTargetStart, if_pos (Or.inl hidx), hpick]
  · apply selectors_usage
    have e0 : trimSpace ([] : GoStr) = [] := rfl
    simp [countElementSelectors, if_pos hidx, htrim, e0]

/-- Witness for C10: a one-element list holding index 1 and no element with
id "zzz": the swipe path resolves by index, the selector path errors. -/
theorem pickElement_swipe_model :
    pickElement
      [{ Index := 1, ID := "btn-1".toList, Role := "Button".toList,
         Label := "Next".toList, Value := [], NearbyLabel := [], Enabled := true,
         Focused := false, Visible := true, Offscreen := false,
         Frame := ⟨0, 0, 10, 10, "pt".toList⟩, Center := ⟨5, 5, "pt".toList⟩,
         Source := ⟨"idb".toList, "describe-all".toList⟩, order := 1 }] 1
      "zzz".toList = Except.ok
      { Index := 1, ID := "btn-1".toList, Role := "Button".toList,
        Label := "Next".toList, Value := [], NearbyLabel := [], Enabled := true,
        Focused := false, Visible := true, Offscreen := false,
        Frame := ⟨0, 0, 10, 10, "pt".toList⟩, Center := ⟨5, 5, "pt".toList⟩,
        Source := ⟨"idb".toList, "describe-all".toList⟩, order := 1 } ∧
    swipeTargetStart
      [{ Index := 1, ID := "btn-1".toList, Role := "Button".toList,
         Label := "Next".toList, Value := [], NearbyLabel := [], Enabled := true,
         Focused := false, Visible := true, Offscreen := false,
         Frame := ⟨0, 0, 10, 10, "pt".toList⟩, Center := ⟨5, 5, "pt".toList⟩,
         Source := ⟨"idb".toList, "describe-all".toList⟩, order := 1 }] 1
      "zzz".toList 196 426 = Except.ok (5, 5) ∧
    pickElementBySelectors
      [{ Index := 1, ID := "btn-1".toList, Role := "Button".toList,
         Label := "Next".toList, Value := [], NearbyLabel := [], Enabled := true,
         Focused := false, Visible := true, Offscreen := false,
         Frame := ⟨0, 0, 10, 10, "pt".toList⟩, Center := ⟨5, 5, "pt".toList⟩,
         Source := ⟨"idb".toList, "describe-all".toList⟩, order := 1 }] 1
      "zzz".toList [] [] =
      Except.error ⟨"USAGE", "choose only one selector: --index|--id|--label|--contains"⟩ := by
  have h := pickElement_swipe_spec
    [{ Index := 1, ID := "btn-1".toList, Role := "Button".toList,
       Label := "Next".toList, Value := [], NearbyLabel := [], Enabled := true,
       Focused := false, Visible := true, Offscreen := false,
       Frame := ⟨0, 0, 10, 10, "pt".toList⟩, Center := ⟨5, 5, "pt".toList⟩,
       Source := ⟨"idb".toList, "describe-all".toList⟩, order := 1 }] 1
    "zzz".toList 196 426
    { Index := 1, ID := "btn-1".toList, Role := "Button".toList,
      Label := "Next".toList, Value := [], NearbyLabel := [], Enabled := true,
      Focused := false, Visible := true, Offscreen := false,
      Frame := ⟨0, 0, 10, 10, "pt".toList⟩, Center := ⟨5, 5, "pt".toList⟩,
      Source := ⟨"idb".toList, "describe-all".toList⟩, order := 1 }
    (by decide) (by decide) (by decide) (by decide)
  exact ⟨h.1, h.2.1, h.2.2⟩

/-- The preorder the candidate sort of `pickElementByText` orders by:
`b` dominates `x` when `b` scores higher, or ties with an index no larger. -/
def pickDominates (b x : Element × Nat) : Prop :=
  x.2 < b.2 ∨ (x.2 = b.2 ∧ b.1.Index ≤ x.1.Index)

lemma pickDominates_refl (x : Element × Nat) : pickDominates x x :=
  Or.inr ⟨rfl, le_refl _⟩

lemma pickDominates_trans (a b c : Element × Nat) :
    pickDominates a b → pickDominates b c → pickDominates a c := by
  unfold pickDominates
  omega

lemma pickStep_self_or (b d : Element × Nat) : pickStep b d = d ∨ pickStep b d = b := by
  rw [pickStep]
  split_ifs
  · exact Or.inl rfl
  · exact Or.inr rfl

lemma pickStep_dom_left (b d : Element × Nat) : pickDominates (pickStep b d) b := by
  rw [pickStep]
  split_ifs with h
  · unfold pickDominates
    omega
  · exact pickDominates_refl b

lemma pickStep_dom_right (b d : Element × Nat) : pickDominates (pickStep b d) d := by
  rw [pickStep]
  split_ifs with h
  · exact pickDominates_refl d
  · unfold pickDominates at *
    omega

lemma foldl_pickStep_spec : ∀ (cs : List (Element × Nat)) (c : Element × Nat),
    (cs.foldl pickStep c = c ∨ cs.foldl pickStep c ∈ cs) ∧
    pickDominates (cs.foldl pickStep c) c ∧
    ∀ x ∈ cs, pickDominates (cs.foldl pickStep c) x := by
  intro cs
  induction cs with
  | nil => intro c; exact ⟨Or.inl rfl, pickDominates_refl c, by simp⟩
  | cons d ds ih =>
    intro c
    obtain ⟨hmem, hdom, hall⟩ := ih (pickStep c d)
    rw [List.foldl_cons]
    refine ⟨?_, ?_, ?_⟩
    · rcases hmem with h | h
      · rcases pickStep_self_or c d with h2 | h2
        · rw [h, h2]; exact Or.inr (List.mem_cons_self _ _)
        · rw [h, h2]; exact Or.inl rfl
      · exact Or.inr (List.mem_cons_of_mem _ h)
    · exact pickDominates_trans _ _ _ hdom (pickStep_dom_left c d)
    · intro x hx
      rcases List.mem_cons.mp hx with h | h
      · rw [h]
        exact pickDominates_trans _ _ _ hdom (pickStep_dom_right c d)
      · exact hall x h

lemma textScore_some_iff (lq cq : GoStr) (e : Element) (s : Nat) :
    textScore lq cq e = some s ↔
      (e.Enabled = true ∧ (lq ≠ [] → exactHit lq e = true) ∧
       (cq ≠ [] → subHit cq e = true) ∧ s = specScore lq cq e) := by
  cases hE : e.Enabled with
  | false => simp [textScore, hE]
  | true =>
    by_cases hLq : lq = [] <;> by_cases hCq : cq = [] <;>
    by_cases hL : equalFold (trimSpace e.Label) lq = true <;>
    by_cases hV : equalFold (trimSpace e.Value) lq = true <;>
    by_cases hN : equalFold (trimSpace e.NearbyLabel) lq = true <;>
    by_cases hS : containsRunes (toLower (elementText e)) cq = true <;>
      simp [textScore, specScore, exactHit, subHit, hE, hLq, hCq, hL, hV, hN, hS,
        List.isEmpty_iff] <;>
      omega

/-- C2: for a label or contains query (main.go `pickElementByText`) only
enabled elements are candidates, the score is the specification's table
(`specScore`), a label query keeps only exact-hit elements and a contains
query only substring-hit elements, the returned element is a candidate of
maximal score with ties broken by ascending index, and the query errors
with `ELEMENT_NOT_FOUND` exactly when no candidate remains. -/
theorem pickElementByText_spec :
    ∀ (elements : List Element) (labelQ containsQ : GoStr),
    (∀ e, pickElementByText elements labelQ containsQ = Except.ok e →
      e ∈ elements ∧ e.Enabled = true ∧
      ∃ s, textScore (toLower (trimSpace labelQ)) (toLower (trimSpace containsQ)) e =
          some s ∧
        ∀ e2 ∈ elements, ∀ s2,
          textScore (toLower (trimSpace labelQ)) (toLower (trimSpace containsQ)) e2 =
            some s2 →
          s2 < s ∨ (s2 = s ∧ e.Index ≤ e2.Index)) ∧
    ((∀ e ∈ elements,
        textScore (toLower (trimSpace labelQ)) (toLower (trimSpace containsQ)) e = none) ↔
      (∃ msg, pickElementByText elements labelQ containsQ =
        Except.error ⟨"ELEMENT_NOT_FOUND", msg⟩)) ∧
    (∀ e s,
      textScore (toLower (trimSpace labelQ)) (toLower (trimSpace containsQ)) e = some s →
      e.Enabled = true ∧
      (toLower (trimSpace labelQ) ≠ [] →
        exactHit (toLower (trimSpace labelQ)) e = true) ∧
      (toLower (trimSpace containsQ) ≠ [] →
        subHit (toLower (trimSpace containsQ)) e = true) ∧
      s = specScore (toLower (trimSpace labelQ)) (toLower (trimSpace containsQ)) e) := by
  intro elements labelQ containsQ
  refine ⟨?_, ?_, fun e s h => (textScore_some_iff _ _ _ _).mp h⟩
  · intro e h
    rw [pickElementByText] at h
    cases hfm : elements.filterMap (fun e =>
        (textScore (toLower (trimSpace labelQ)) (toLower (trimSpace containsQ)) e).map
          (fun s => (e, s))) with
    | nil => rw [hfm] at h; cases h
    | cons c cs =>
      rw [hfm] at h
      have he : e = (cs.foldl pickStep c).1 := by
        exact (Except.ok.inj h).symm
      obtain ⟨hmem, hdomc, hall⟩ := foldl_pickStep_spec cs c
      have hmem2 : cs.foldl pickStep c ∈ c :: cs := by
        rcases hmem with h2 | h2
        · rw [h2]; exact List.mem_cons_self _ _
        · exact List.mem_cons_of_mem _ h2
      rw [← hfm] at hmem2
      obtain ⟨a, ha, hfa⟩ := List.mem_filterMap.mp hmem2
      obtain ⟨v, hv, hpair⟩ : ∃ v,
          textScore (toLower (trimSpace labelQ)) (toLower (trimSpace containsQ)) a =
            some v ∧ (a, v) = cs.foldl pickStep c := by
        cases hts : textScore (toLower (trimSpace labelQ)) (toLower (trimSpace containsQ)) a with
        | none => rw [hts] at hfa; cases hfa
        | some v =>
          rw [hts] at hfa
          exact ⟨v, rfl, Option.some.inj hfa⟩
      have hae : a = e := by rw [he, ← hpair]
      subst hae
      have hsv : textScore (toLower (trimSpace labelQ)) (toLower (trimSpace containsQ)) a =
          some v := hv
      refine ⟨ha, ((textScore_some_iff _ _ _ _).mp hsv).1, v, hsv, ?_⟩
      intro e2 he2 s2 hs2
      have hp2 : (e2, s2) ∈ c :: cs := by
        rw [← hfm]
        exact List.mem_filterMap.mpr ⟨e2, he2, by rw [hs2]; rfl⟩
      have hdom : pickDominates (cs.foldl pickStep c) (e2, s2) := by
        rcases List.mem_cons.mp hp2 with h2 | h2
        · rw [h2]; exact hdomc
        · exact hall _ h2
      have hv2 : (cs.foldl pickStep c).2 = v := by rw [← hpair]
      have hi2 : (cs.foldl pickStep c).1.Index = e2.Index → True := fun _ => trivial
      rcases hdom with h2 | ⟨h2a, h2b⟩
      · left; rw [← hv2]; exact h2
      · right
        refine ⟨by rw [← hv2]; exact h2a, ?_⟩
        have : (cs.foldl pickStep c).1 = a := by rw [← hpair]
        rw [← this]
        exact h2b
  · constructor
    · intro hall
      have hnil : elements.filterMap (fun e =>
          (textScore (toLower (trimSpace labelQ)) (toLower (trimSpace containsQ)) e).map
            (fun s => (e, s))) = [] := by
        rw [List.filterMap_eq_nil_iff]
        intro a ha
        rw [hall a ha]
        rfl
      rw [pickElementByText, hnil]
      exact ⟨_, rfl⟩
    · rintro ⟨msg, hmsg⟩ e he
      cases hts : textScore (toLower (trimSpace labelQ)) (toLower (trimSpace containsQ)) e with
      | none => rfl
      | some s =>
        exfalso
        have hp : (e, s) ∈ elements.filterMap (fun e =>
            (textScore (toLower (trimSpace labelQ)) (toLower (trimSpace containsQ)) e).map
              (fun s => (e, s))) :=
          List.mem_filterMap.mpr ⟨e, he, by rw [hts]; rfl⟩
        rw [pickElementByText] at hmsg
        cases hfm : elements.filterMap (fun e =>
            (textScore (toLower (trimSpace labelQ)) (toLower (trimSpace containsQ)) e).map
              (fun s => (e, s))) with
        | nil => rw [hfm] at hp; cases hp
        | cons c cs => rw [hfm] at hmsg; cases hmsg

/-- The JSON-decoded `any` value the snapshot provider hands over
(map / array / string / number / bool / null).  Go map iteration order is
unspecified; an `obj` carries its fields in one fixed order, and every
theorem below quantifies over all orders. -/
inductive RawValue where
  | str (s : GoStr)
  | num (x : ℚ)
  | boolv (b : Bool)
  | null
  | arr (items : List RawValue)
  | obj (fields : List (GoStr × RawValue))

/-- Go map lookup `m[k]` on the field list. -/
def objGet (fields : List (GoStr × RawValue)) (k : GoStr) : Option RawValue :=
  (fields.find? (fun kv => kv.1 == k)).map (fun kv => kv.2)

/-- Decimal value of a digit run. -/
def decVal (ds : GoStr) : ℚ :=
  ds.foldl (fun acc c => acc * 10 + ((c.toNat - 48 : Nat) : ℚ)) 0

/-- Go `strconv.ParseFloat` restricted to plain decimal forms
(optional sign, digits, optional fraction); exponent, hex and inf/NaN forms
of Go are not produced by the snapshot provider and are left unparsed. -/
def parseFloatQ (s : GoStr) : Option ℚ :=
  let core := fun (rest : GoStr) (sign : ℚ) =>
    let intPart := rest.takeWhile Char.isDigit
    match rest.dropWhile Char.isDigit with
    | [] => if intPart.isEmpty then none else some (sign * decVal intPart)
    | '.' :: frac =>
      if frac.all Char.isDigit ∧ ¬ (intPart.isEmpty ∧ frac.isEmpty) then
        some (sign * (decVal intPart + decVal frac / (10 : ℚ) ^ frac.length))
      else none
    | _ => none
  match s with
  | '+' :: rest => core rest 1
  | '-' :: rest => core rest (-1)
  | rest => core rest 1

/-- Go `strconv.ParseBool`: the exact literal set it accepts. -/
def parseBoolGo (s : GoStr) : Option Bool :=
  if ["1", "t", "T", "TRUE", "true", "True"].map String.toList |>.contains s then some true
  else if ["0", "f", "F", "FALSE", "false", "False"].map String.toList |>.contains s then
    some false
  else none

/-- Rendering of a number as `fmt.Sprint` would show it.  Go prints float64
with the shortest decimal form; the exact digits never matter to the claims
proved here (strings produced from numbers are never empty nor `"<nil>"` in
either rendering), so a direct rational rendering is used. -/
def ratSprint (x : ℚ) : GoStr :=
  if x.den = 1 then (toString x.num).toList
  else (toString x.num).toList ++ '/' :: (toString x.den).toList

mutual
/-- Go `fmt.Sprint` of a decoded JSON value: strings verbatim, booleans as
`true`/`false`, nil as `<nil>`, slices as `[a b]`, maps as `map[k:v ...]`
(Go sorts map keys in `fmt`; the field order is taken as given here, which
feeds no claim below). -/
def goSprint : RawValue → GoStr
  | .str s => s
  | .num x => ratSprint x
  | .boolv b => if b then "true".toList else "false".toList
  | .null => "<nil>".toList
  | .arr items => '[' :: (goSprintList items ++ [']'])
  | .obj fields => "map[".toList ++ (goSprintFields fields ++ [']'])

def goSprintList : List RawValue → GoStr
  | [] => []
  | [v] => goSprint v
  | v :: rest => goSprint v ++ ' ' :: goSprintList rest

def goSprintFields : List (GoStr × RawValue) → GoStr
  | [] => []
  | [kv] => kv.1 ++ ':' :: goSprint kv.2
  | kv :: rest => (kv.1 ++ ':' :: goSprint kv.2) ++ ' ' :: goSprintFields rest
end

/-- main.go `firstString`: first present alias key whose printed, trimmed
value is neither empty nor `<nil>`. -/
def firstString (m : List (GoStr × RawValue)) : List GoStr → GoStr
  | [] => []
  | k :: rest =>
    match objGet m k with
    | none => firstString m rest
    | some v =>
      if trimSpace (goSprint v) ≠ [] ∧ trimSpace (goSprint v) ≠ "<nil>".toList then
        trimSpace (goSprint v)
      else firstString m rest

/-- main.go `firstBoolWithDefault`. -/
def firstBoolWithDefault (m : List (GoStr × RawValue)) (fallback : Bool) :
    List GoStr → Bool
  | [] => fallback
  | k :: rest =>
    match objGet m k with
    | some (.boolv b) => b
    | some (.str sv) =>
      match parseBoolGo (trimSpace sv) with
      | some b => b
      | none => firstBoolWithDefault m fallback rest
    | some _ => firstBoolWithDefault m fallback rest
    | none => firstBoolWithDefault m fallback rest

/-- main.go `getFloatAny` (float64 and numeric-string cases; the decoder
produces no float32/int/json.Number values). -/
def getFloatAny (m : List (GoStr × RawValue)) : List GoStr → Option ℚ
  | [] => none
  | k :: rest =>
    match objGet m k with
    | none => getFloatAny m rest
    | some (.num x) => some x
    | some (.str sv) =>
      match parseFloatQ (trimSpace sv) with
      | some f => some f
      | none => getFloatAny m rest
    | some _ => getFloatAny m rest

/-- main.go `rectFromAny`. -/
def rectFromAny : RawValue → Option FrameRect
  | .obj mapVal =>
    match getFloatAny mapVal (["x", "left", "originX"].map String.toList),
        getFloatAny mapVal (["y", "top", "originY"].map String.toList),
        getFloatAny mapVal (["w", "width"].map String.toList),
        getFloatAny mapVal (["h", "height"].map String.toList) with
    | some x, some y, some w, some h => some ⟨x, y, w, h, "pt".toList⟩
    | _, _, _, _ => none
  | _ => none

/-- main.go `findRect`: `frame` / `bounds` / `rect` aliases, else the node
itself (a missing key hands `nil` to `rectFromAny`). -/
def findRect (m : List (GoStr × RawValue)) : Option FrameRect :=
  match rectFromAny ((objGet m "frame".toList).getD .null) with
  | some rect => some rect
  | none =>
    match rectFromAny ((objGet m "bounds".toList).getD .null) with
    | some rect => some rect
    | none =>
      match rectFromAny ((objGet m "rect".toList).getD .null) with
      | some rect => some rect
      | none => rectFromAny (.obj m)

/-- main.go `candidateNode`. -/
structure CandidateNode where
  Path : GoStr
  Order : Int
  Map : List (GoStr × RawValue)

mutual
/-- main.go `walkCandidates`: every object node gets the next discovery
rank and is recorded; children extend the path by `/key` or `/index`. -/
def walkCandidates : RawValue → GoStr → Int → List CandidateNode × Int
  | .obj fields, path, order =>
    let rest := walkFields fields path (order + 1)
    (⟨path, order + 1, fields⟩ :: rest.1, rest.2)
  | .arr items, path, order => walkItems items path 0 order
  | _, _, order => ([], order)

def walkFields : List (GoStr × RawValue) → GoStr → Int → List CandidateNode × Int
  | [], _, order => ([], order)
  | (k, v) :: rest, path, order =>
    let first := walkCandidates v (path ++ '/' :: k) order
    let others := walkFields rest path first.2
    (first.1 ++ others.1, others.2)

def walkItems : List RawValue → GoStr → Nat → Int → List CandidateNode × Int
  | [], _, _, order => ([], order)
  | v :: rest, path, i, order =>
    let first := walkCandidates v (path ++ '/' :: (toString i).toList) order
    let others := walkItems rest path (i + 1) first.2
    (first.1 ++ others.1, others.2)
end

/-- main.go `elementFromCandidate`: a node becomes a candidate element only
if a positive rectangle resolves; ids fall back to the synthesized ax path,
the label falls back to the value, `Enabled` defaults true, `Focused`
defaults false. -/
def elementFromCandidate (node : CandidateNode) : Option Element :=
  match findRect node.Map with
  | none => none
  | some rect =>
    if rect.W ≤ 0 ∨ rect.H ≤ 0 then none
    else
      some
        { Index := 0
          ID :=
            if firstString node.Map
                (["id", "identifier", "uid", "axPath", "path",
                  "accessibilityIdentifier"].map String.toList) = [] then
              "axpath:".toList ++ node.Path
            else
              firstString node.Map
                (["id", "identifier", "uid", "axPath", "path",
                  "accessibilityIdentifier"].map String.toList)
          Role := firstString node.Map
            (["role", "type", "elementType", "axRole", "roleDescription", "AXRole",
              "wdType"].map String.toList)
          Label :=
            if firstString node.Map
                (["label", "name", "title", "placeholder", "accessibilityLabel",
                  "axLabel", "AXLabel", "wdLabel"].map String.toList) = [] ∧
                firstString node.Map
                  (["value", "text", "axValue", "AXValue", "displayValue", "wdValue",
                    "selectedText"].map String.toList) ≠ [] then
              firstString node.Map
                (["value", "text", "axValue", "AXValue", "displayValue", "wdValue",
                  "selectedText"].map String.toList)
            else
              firstString node.Map
                (["label", "name", "title", "placeholder", "accessibilityLabel",
                  "axLabel", "AXLabel", "wdLabel"].map String.toList)
          Value := firstString node.Map
            (["value", "text", "axValue", "AXValue", "displayValue", "wdValue",
              "selectedText"].map String.toList)
          NearbyLabel := []
          Enabled := firstBoolWithDefault node.Map true
            (["enabled", "isEnabled"].map String.toList)
          Focused := firstBoolWithDefault node.Map false
            (["focused", "isFocused", "hasFocus", "AXFocused"].map String.toList)
          Visible := true
          Offscreen := false
          Frame := rect
          Center := ⟨rect.X + rect.W / 2, rect.Y + rect.H / 2, "pt".toList⟩
          Source := ⟨"idb".toList, "describe-all".toList⟩
          order := 0 }

/-- main.go `frameOptions`.  Role sets (`map[string]bool` built by `csvSet`,
only `true` entries) are carried as key lists; `StableInterval` is the
duration in nanoseconds. -/
structure FrameOptions where
  OutDir : GoStr
  Screenshot : Bool
  UI : Bool
  Annotate : Bool
  InteractiveOnly : Bool
  Stable : Bool
  StableSamples : Nat
  StableInterval : Int
  Order : GoStr
  Format : GoStr
  MinArea : ℚ
  IncludeRoles : List GoStr
  ExcludeRoles : List GoStr
  EmitJSON : Bool

/-- The filtering loop of main.go `normalizeElements`: min area, include /
exclude role sets, enabled-only; `allCount` counts every filtered element,
`interactiveCount` the interactive ones, and interactive-only drops the
rest after counting.  Kept elements record their discovery rank. -/
def normalizeFilter (opts : FrameOptions) : List CandidateNode → List Element × Nat × Nat
  | [] => ([], 0, 0)
  | node :: rest =>
    let r := normalizeFilter opts rest
    match elementFromCandidate node with
    | none => r
    | some elem =>
      if elem.Frame.W * elem.Frame.H < opts.MinArea then r
      else if opts.IncludeRoles ≠ [] ∧
          ¬ opts.IncludeRoles.contains (toLower (trimSpace elem.Role)) then r
      else if opts.ExcludeRoles.contains (toLower (trimSpace elem.Role)) then r
      else if elem.Enabled = false then r
      else if opts.InteractiveOnly ∧ isInteractiveRole elem.Role = false then
        (r.1, r.2.1 + 1, r.2.2 + (if isInteractiveRole elem.Role then 1 else 0))
      else
        ({ elem with order := node.Order } :: r.1,
          r.2.1 + 1, r.2.2 + (if isInteractiveRole elem.Role then 1 else 0))

/-- Stands in for `math.MaxFloat64`, the sentinel of the bounding-box scan
(sentinel only: far above any coordinate the tool meets). -/
def maxFloatQ : ℚ := 2 ^ 1024

/-- main.go `inferScreenRect`: the root node's own positive rect if any,
else the bounding box of all non-degenerate frames, else the zero rect. -/
def inferScreenRect (rawUI : RawValue) (elements : List Element) : FrameRect :=
  let fromRoot : Option FrameRect :=
    match rawUI with
    | .obj root =>
      match findRect root with
      | some rect => if 0 < rect.W ∧ 0 < rect.H then some rect else none
      | none => none
    | _ => none
  match fromRoot with
  | some rect => rect
  | none =>
    let st := elements.foldl
      (fun (acc : ℚ × ℚ × ℚ × ℚ) e =>
        if e.Frame.W ≤ 0 ∨ e.Frame.H ≤ 0 then acc
        else
          (min acc.1 e.Frame.X, min acc.2.1 e.Frame.Y,
           max acc.2.2.1 (e.Frame.X + e.Frame.W), max acc.2.2.2 (e.Frame.Y + e.Frame.H)))
      (maxFloatQ, maxFloatQ, 0, 0)
    if st.1 = maxFloatQ ∨ st.2.1 = maxFloatQ ∨ st.2.2.1 ≤ st.1 ∨ st.2.2.2 ≤ st.2.1 then
      ⟨0, 0, 0, 0, []⟩
    else
      ⟨st.1, st.2.1, st.2.2.1 - st.1, st.2.2.2 - st.2.1, "pt".toList⟩

/-- Go string `<` (byte-wise in Go, character-wise here). -/
def strLt : GoStr → GoStr → Bool
  | [], [] => false
  | [], _ :: _ => true
  | _ :: _, [] => false
  | a :: as, b :: bs => if a < b then true else if b < a then false else strLt as bs

/-- The `reading` comparator of main.go `normalizeElements`. -/
def readingLt (a b : Element) : Bool :=
  if a.Center.Y ≠ b.Center.Y then decide (a.Center.Y < b.Center.Y)
  else if a.Center.X ≠ b.Center.X then decide (a.Center.X < b.Center.X)
  else strLt a.ID b.ID

/-- The `stable` comparator (lexicographic `ID`). -/
def stableLt (a b : Element) : Bool := strLt a.ID b.ID

/-- The `z` comparator (discovery order). -/
def zLt (a b : Element) : Bool := decide (a.order < b.order)

def insertSorted (lt : Element → Element → Bool) (e : Element) :
    List Element → List Element
  | [] => [e]
  | x :: xs => if lt e x then e :: x :: xs else x :: insertSorted lt e xs

/-- A comparison sort realizing the source's `sort.Slice` (which is an
unstable comparison sort, so any sort by the same comparator refines it; no
claim below depends on the order of tied elements). -/
def sortElements (lt : Element → Element → Bool) : List Element → List Element
  | [] => []
  | x :: xs => insertSorted lt x (sortElements lt xs)

/-- The ordering-mode dispatch of main.go `normalizeElements`; an unknown
mode sorts nothing. -/
def orderElements (ord : GoStr) (es : List Element) : List Element :=
  if ord = "reading".toList then sortElements readingLt es
  else if ord = "stable".toList then sortElements stableLt es
  else if ord = "z".toList then sortElements zLt es
  else es

/-- The index-assignment loop of main.go `normalizeElements`
(`Index = i + 1` from position `i`). -/
def assignIndicesFrom : Int → List Element → List Element
  | _, [] => []
  | i, e :: rest => { e with Index := i + 1 } :: assignIndicesFrom (i + 1) rest

/-- The inner best-donor scan of main.go `addNearbyLabels` for element `i`:
skip itself, skip donors with an empty trimmed label or not visible, skip
donors farther than 220pt (squared: 48400), keep the nearest (strict
improvement only, so the first of equally near donors wins).  The
`math.MaxFloat64` initial best is modelled as `none` (every real candidate
distance beats it). -/
def donorStep (arr : List Element) (i : Nat) (best : Option (Nat × ℚ)) (j : Nat) :
    Option (Nat × ℚ) :=
  if i = j then best
  else if trimSpace (arr.getD j default).Label = [] ∨
      (arr.getD j default).Visible = false then best
  else if 48400 < distSq (arr.getD i default).Center (arr.getD j default).Center then
    best
  else
    match best with
    | none => some (j, distSq (arr.getD i default).Center (arr.getD j default).Center)
    | some (bj, bs) =>
      if distSq (arr.getD i default).Center (arr.getD j default).Center < bs then
        some (j, distSq (arr.getD i default).Center (arr.getD j default).Center)
      else some (bj, bs)

def nearbyDonor (arr : List Element) (i : Nat) : Option (Nat × ℚ) :=
  (List.range arr.length).foldl (donorStep arr i) none

/-- One iteration of the outer loop of main.go `addNearbyLabels`: an element
with a non-empty trimmed label is left alone, else its `NearbyLabel` is set
to the best donor's label (in place, i.e. on the current array state). -/
def nearbyStep (arr : List Element) (i : Nat) : List Element :=
  if trimSpace (arr.getD i default).Label ≠ [] then arr
  else
    match nearbyDonor arr i with
    | some (j, _) =>
      arr.set i { arr.getD i default with NearbyLabel := (arr.getD j default).Label }
    | none => arr

/-- main.go `addNearbyLabels`. -/
def addNearbyLabels (elements : List Element) : List Element :=
  (List.range elements.length).foldl nearbyStep elements

/-- main.go `normalizeElements` (second copy, the one the frame pipeline
uses): walk, filter and count, classify visibility against the inferred
screen rect, order, assign indices 1..N, then infer nearby labels. -/
def normalizeElements (rawUI : RawValue) (opts : FrameOptions) :
    List Element × Nat × Nat :=
  let nodes := (walkCandidates rawUI [] 0).1
  let pre := normalizeFilter opts nodes
  let screenRect := inferScreenRect rawUI pre.1
  let classified := pre.1.map (fun e =>
    { e with
      Visible := (classifyVisibility e.Frame screenRect).1,
      Offscreen := (classifyVisibility e.Frame screenRect).2 })
  let indexed := assignIndicesFrom 0 (orderElements opts.Order classified)
  (addNearbyLabels indexed, pre.2.1, pre.2.2)

/-- Equality of two elements on every field except `NearbyLabel`. -/
def eqExceptNearby (a b : Element) : Prop :=
  a.Index = b.Index ∧ a.ID = b.ID ∧ a.Role = b.Role ∧ a.Label = b.Label ∧
  a.Value = b.Value ∧ a.Enabled = b.Enabled ∧ a.Focused = b.Focused ∧
  a.Visible = b.Visible ∧ a.Offscreen = b.Offscreen ∧ a.Frame = b.Frame ∧
  a.Center = b.Center ∧ a.Source = b.Source ∧ a.order = b.order

lemma eqExceptNearby_refl (a : Element) : eqExceptNearby a a :=
  ⟨rfl, rfl, rfl, rfl, rfl, rfl, rfl, rfl, rfl, rfl, rfl, rfl, rfl⟩

lemma eqExceptNearby_trans {a b c : Element} (h1 : eqExceptNearby a b)
    (h2 : eqExceptNearby b c) : eqExceptNearby a c := by
  obtain ⟨a1, a2, a3, a4, a5, a6, a7, a8, a9, a10, a11, a12, a13⟩ := h1
  obtain ⟨b1, b2, b3, b4, b5, b6, b7, b8, b9, b10, b11, b12, b13⟩ := h2
  exact ⟨a1.trans b1, a2.trans b2, a3.trans b3, a4.trans b4, a5.trans b5,
    a6.trans b6, a7.trans b7, a8.trans b8, a9.trans b9, a10.trans b10,
    a11.trans b11, a12.trans b12, a13.trans b13⟩

lemma getD_set_ne (l : List Element) (i k : Nat) (e : Element) (h : i ≠ k) :
    (l.set i e).getD k default = l.getD k default := by
  rw [List.getD_eq_getElem?_getD, List.getD_eq_getElem?_getD, List.getElem?_set_ne h]

lemma getD_set_self (l : List Element) (i : Nat) (e : Element) (h : i < l.length) :
    (l.set i e).getD i default = e := by
  have h2 : (l.set i e)[i]? = some e := by
    rw [List.getElem?_set_self]
    simp [h]
  rw [List.getD_eq_getElem?_getD, h2]
  rfl

lemma nearbyStep_keep_eq (arr : List Element) (i : Nat)
    (h : trimSpace (arr.getD i default).Label ≠ []) : nearbyStep arr i = arr := by
  rw [nearbyStep, if_pos h]

lemma nearbyStep_none_eq (arr : List Element) (i : Nat)
    (h : ¬ trimSpace (arr.getD i default).Label ≠ [])
    (hd : nearbyDonor arr i = none) : nearbyStep arr i = arr := by
  rw [nearbyStep, if_neg h, hd]

lemma nearbyStep_some_eq (arr : List Element) (i j : Nat) (d : ℚ)
    (h : ¬ trimSpace (arr.getD i default).Label ≠ [])
    (hd : nearbyDonor arr i = some (j, d)) :
    nearbyStep arr i =
      arr.set i { arr.getD i default with NearbyLabel := (arr.getD j default).Label } := by
  rw [nearbyStep, if_neg h, hd]

lemma nearbyStep_length (arr : List Element) (i : Nat) :
    (nearbyStep arr i).length = arr.length := by
  rw [nearbyStep]
  split_ifs with h
  · rfl
  · cases hd : nearbyDonor arr i with
    | none => rfl
    | some jd =>
      obtain ⟨j, d⟩ := jd
      exact List.length_set _ _ _

lemma nearbyStep_getD_ne (arr : List Element) (i k : Nat) (h : i ≠ k) :
    (nearbyStep arr i).getD k default = arr.getD k default := by
  rw [nearbyStep]
  split_ifs
  · rfl
  · cases hd : nearbyDonor arr i with
    | none => rfl
    | some jd =>
      obtain ⟨j, d⟩ := jd
      exact getD_set_ne arr i k _ h

lemma nearbyStep_getD_eqExcept (arr : List Element) (i k : Nat) :
    eqExceptNearby ((nearbyStep arr i).getD k default) (arr.getD k default) := by
  by_cases hik : i = k
  · subst hik
    by_cases hl : trimSpace (arr.getD i default).Label ≠ []
    · rw [nearbyStep_keep_eq _ _ hl]
      exact eqExceptNearby_refl _
    · cases hd : nearbyDonor arr i with
      | none =>
        rw [nearbyStep_none_eq _ _ hl hd]
        exact eqExceptNearby_refl _
      | some jd =>
        obtain ⟨j, d⟩ := jd
        rw [nearbyStep_some_eq _ _ _ _ hl hd]
        by_cases hlen : i < arr.length
        · rw [getD_set_self _ _ _ hlen]
          exact ⟨rfl, rfl, rfl, rfl, rfl, rfl, rfl, rfl, rfl, rfl, rfl, rfl, rfl⟩
        · rw [List.set_eq_of_length_le (by omega)]
          exact eqExceptNearby_refl _
  · rw [nearbyStep_getD_ne arr i k hik]
    exact eqExceptNearby_refl _

lemma foldl_nearbyStep_length : ∀ (js : List Nat) (arr : List Element),
    (js.foldl nearbyStep arr).length = arr.length := by
  intro js
  induction js with
  | nil => intro arr; rfl
  | cons j js ih =>
    intro arr
    rw [List.foldl_cons, ih, nearbyStep_length]

lemma foldl_nearbyStep_eqExcept : ∀ (js : List Nat) (arr : List Element) (k : Nat),
    eqExceptNearby ((js.foldl nearbyStep arr).getD k default) (arr.getD k default) := by
  intro js
  induction js with
  | nil => intro arr k; exact eqExceptNearby_refl _
  | cons j js ih =>
    intro arr k
    rw [List.foldl_cons]
    exact eqExceptNearby_trans (ih _ k) (nearbyStep_getD_eqExcept arr j k)

lemma foldl_nearbyStep_getD_notMem : ∀ (js : List Nat) (arr : List Element) (k : Nat),
    k ∉ js → (js.foldl nearbyStep arr).getD k default = arr.getD k default := by
  intro js
  induction js with
  | nil => intro arr k _; rfl
  | cons j js ih =>
    intro arr k hk
    have hjk : j ≠ k := fun h => hk (h ▸ List.mem_cons_self j js)
    rw [List.foldl_cons, ih _ _ (fun h => hk (List.mem_cons_of_mem _ h)),
      nearbyStep_getD_ne _ _ _ hjk]

/-- Spec-side: `j` qualifies as a nearby-label donor for element `i` of
`es`: another element, visible, with a non-empty trimmed label, within
220pt (squared: 48400) of `i`'s center. -/
def donorOK (es : List Element) (i j : Nat) : Prop :=
  j < es.length ∧ j ≠ i ∧ trimSpace (es.getD j default).Label ≠ [] ∧
  (es.getD j default).Visible = true ∧
  distSq (es.getD i default).Center (es.getD j default).Center ≤ 48400

/-- Loop invariant of the best-donor scan: over the indices seen so far,
`none` means no qualifying donor yet, `some (bj, bs)` a qualifying donor at
the (squared) distance `bs`, minimal among the seen qualifying donors. -/
def donorState (es : List Element) (i : Nat) (seen : List Nat) :
    Option (Nat × ℚ) → Prop
  | none => ∀ j ∈ seen, ¬ donorOK es i j
  | some (bj, bs) => donorOK es i bj ∧
      bs = distSq (es.getD i default).Center (es.getD bj default).Center ∧
      ∀ j ∈ seen, donorOK es i j →
        bs ≤ distSq (es.getD i default).Center (es.getD j default).Center

lemma donorStep_state (es : List Element) (i : Nat) (seen : List Nat)
    (best : Option (Nat × ℚ)) (j0 : Nat) (hj0 : j0 < es.length)
    (hb : donorState es i seen best) :
    donorState es i (seen ++ [j0]) (donorStep es i best j0) := by
  have memCase : ∀ j, j ∈ seen ++ [j0] → j ∈ seen ∨ j = j0 := by
    intro j hj
    rcases List.mem_append.mp hj with h | h
    · exact Or.inl h
    · exact Or.inr (List.mem_singleton.mp h)
  unfold donorStep
  split_ifs with h1 h2 h3
  · -- i = j0: skipped, j0 is no donor (it is the element itself)
    have hno : ¬ donorOK es i j0 := fun hOK => hOK.2.1 h1.symm
    cases best with
    | none =>
      intro j hj
      rcases memCase j hj with h | h
      · exact hb j h
      · rw [h]; exact hno
    | some bjs =>
      obtain ⟨bj, bs⟩ := bjs
      obtain ⟨hOK, hbs, hopt⟩ := hb
      refine ⟨hOK, hbs, ?_⟩
      intro j hj hjOK
      rcases memCase j hj with h | h
      · exact hopt j h hjOK
      · exact absurd hjOK (h ▸ hno)
  · -- empty label or invisible: no donor
    have hno : ¬ donorOK es i j0 := by
      intro hOK
      rcases h2 with h | h
      · exact hOK.2.2.1 h
      · rw [hOK.2.2.2.1] at h; cases h
    cases best with
    | none =>
      intro j hj
      rcases memCase j hj with h | h
      · exact hb j h
      · rw [h]; exact hno
    | some bjs =>
      obtain ⟨bj, bs⟩ := bjs
      obtain ⟨hOK, hbs, hopt⟩ := hb
      refine ⟨hOK, hbs, ?_⟩
      intro j hj hjOK
      rcases memCase j hj with h | h
      · exact hopt j h hjOK
      · exact absurd hjOK (h ▸ hno)
  · -- farther than 220pt: no donor
    have hno : ¬ donorOK es i j0 := by
      intro hOK
      have := hOK.2.2.2.2
      linarith
    cases best with
    | none =>
      intro j hj
      rcases memCase j hj with h | h
      · exact hb j h
      · rw [h]; exact hno
    | some bjs =>
      obtain ⟨bj, bs⟩ := bjs
      obtain ⟨hOK, hbs, hopt⟩ := hb
      refine ⟨hOK, hbs, ?_⟩
      intro j hj hjOK
      rcases memCase j hj with h | h
      · exact hopt j h hjOK
      · exact absurd hjOK (h ▸ hno)
  · -- qualifying donor
    have hOK0 : donorOK es i j0 := by
      push_neg at h2
      refine ⟨hj0, fun h => h1 h.symm, h2.1, ?_, by linarith⟩
      cases hv : (es.getD j0 default).Visible
      · exact absurd hv h2.2
      · rfl
    cases best with
    | none =>
      refine ⟨hOK0, rfl, ?_⟩
      intro j hj hjOK
      rcases memCase j hj with h | h
      · exact absurd hjOK (hb j h)
      · rw [h]
    | some bjs =>
      obtain ⟨bj, bs⟩ := bjs
      obtain ⟨hOK, hbs, hopt⟩ := hb
      show donorState es i (seen ++ [j0])
        (if distSq (es.getD i default).Center (es.getD j0 default).Center < bs then
          some (j0, distSq (es.getD i default).Center (es.getD j0 default).Center)
        else some (bj, bs))
      split_ifs with h4
      · refine ⟨hOK0, rfl, ?_⟩
        intro j hj hjOK
        rcases memCase j hj with h | h
        · have := hopt j h hjOK
          linarith
        · rw [h]
      · refine ⟨hOK, hbs, ?_⟩
        intro j hj hjOK
        rcases memCase j hj with h | h
        · exact hopt j h hjOK
        · rw [h]; linarith [hbs ▸ h4]

lemma donorFold_state (es : List Element) (i : Nat) :
    ∀ (js : List Nat) (best : Option (Nat × ℚ)) (seen : List Nat),
    (∀ j ∈ js, j < es.length) → donorState es i seen best →
    donorState es i (seen ++ js) (js.foldl (donorStep es i) best) := by
  intro js
  induction js with
  | nil => intro best seen _ hb; simpa using hb
  | cons j0 js ih =>
    intro best seen hbound hb
    rw [List.foldl_cons]
    have h1 := donorStep_state es i seen best j0
      (hbound j0 (List.mem_cons_self _ _)) hb
    have h2 := ih (donorStep es i best j0) (seen ++ [j0])
      (fun j hj => hbound j (List.mem_cons_of_mem _ hj)) h1
    simpa [List.append_assoc] using h2

lemma nearbyDonor_state (es : List Element) (i : Nat) :
    donorState es i (List.range es.length) (nearbyDonor es i) := by
  have h := donorFold_state es i (List.range es.length) none []
    (fun j hj => List.mem_range.mp hj) (by intro j hj; cases hj)
  simpa using h

lemma nearbyDonor_none_spec (es : List Element) (i : Nat)
    (h : nearbyDonor es i = none) : ∀ j, ¬ donorOK es i j := by
  intro j hOK
  have hs := nearbyDonor_state es i
  rw [h] at hs
  exact hs j (List.mem_range.mpr hOK.1) hOK

lemma nearbyDonor_some_spec (es : List Element) (i j : Nat) (d : ℚ)
    (h : nearbyDonor es i = some (j, d)) :
    donorOK es i j ∧
    d = distSq (es.getD i default).Center (es.getD j default).Center ∧
    ∀ j2, donorOK es i j2 →
      d ≤ distSq (es.getD i default).Center (es.getD j2 default).Center := by
  have hs := nearbyDonor_state es i
  rw [h] at hs
  obtain ⟨hOK, hd, hopt⟩ := hs
  exact ⟨hOK, hd, fun j2 h2 => hopt j2 (List.mem_range.mpr h2.1) h2⟩

lemma donorStep_congr (arr arr2 : List Element) (i : Nat)
    (hpt : ∀ k, eqExceptNearby (arr.getD k default) (arr2.getD k default)) :
    ∀ (best : Option (Nat × ℚ)) (j : Nat),
    donorStep arr i best j = donorStep arr2 i best j := by
  intro best j
  obtain ⟨_, _, _, hLab, _, _, _, hVis, _, _, hCen, _, _⟩ := hpt j
  obtain ⟨_, _, _, _, _, _, _, _, _, _, hCenI, _, _⟩ := hpt i
  unfold donorStep
  rw [hLab, hVis, hCen, hCenI]

lemma nearbyDonor_congr (arr arr2 : List Element) (i : Nat)
    (hlen : arr.length = arr2.length)
    (hpt : ∀ k, eqExceptNearby (arr.getD k default) (arr2.getD k default)) :
    nearbyDonor arr i = nearbyDonor arr2 i := by
  rw [nearbyDonor, nearbyDonor, hlen]
  exact List.foldl_ext _ _ none (fun best j _ => donorStep_congr arr arr2 i hpt best j)

lemma addNearbyLabels_length (es : List Element) :
    (addNearbyLabels es).length = es.length :=
  foldl_nearbyStep_length _ _

/-- What `addNearbyLabels` leaves at position `k`: the original element if
its trimmed label is non-empty or no donor qualifies, else the original
element with `NearbyLabel` replaced by the best donor's label. -/
lemma addNearbyLabels_getD (es : List Element) (k : Nat) (hk : k < es.length) :
    (addNearbyLabels es).getD k default =
      (if trimSpace (es.getD k default).Label ≠ [] then es.getD k default
       else
         match nearbyDonor es k with
         | none => es.getD k default
         | some (j, _) =>
           { es.getD k default with NearbyLabel := (es.getD j default).Label }) := by
  have harr1len : ((List.range k).foldl nearbyStep es).length = es.length :=
    foldl_nearbyStep_length _ _
  have harr1k : ((List.range k).foldl nearbyStep es).getD k default = es.getD k default :=
    foldl_nearbyStep_getD_notMem _ _ _ (by simp [List.mem_range])
  have harr1pt : ∀ m, eqExceptNearby (((List.range k).foldl nearbyStep es).getD m default)
      (es.getD m default) := fun m => foldl_nearbyStep_eqExcept _ _ _
  have hdonor : nearbyDonor ((List.range k).foldl nearbyStep es) k = nearbyDonor es k :=
    nearbyDonor_congr _ _ k harr1len harr1pt
  have hdecomp : List.range es.length =
      (List.range k ++ [k]) ++ (List.range (es.length - k - 1)).map (fun x => k + 1 + x) := by
    rw [← List.range_succ, ← List.range_add]
    congr 1
    omega
  rw [addNearbyLabels, hdecomp, List.foldl_append, List.foldl_append,
    foldl_nearbyStep_getD_notMem _ _ _
      (by intro hmem; obtain ⟨x, _, hx⟩ := List.mem_map.mp hmem; omega)]
  rw [show ([k].foldl nearbyStep ((List.range k).foldl nearbyStep es)) =
    nearbyStep ((List.range k).foldl nearbyStep es) k from rfl]
  by_cases hl : trimSpace (es.getD k default).Label ≠ []
  · rw [nearbyStep_keep_eq _ _ (by rw [harr1k]; exact hl), harr1k, if_pos hl]
  · rw [if_neg hl]
    cases hd : nearbyDonor es k with
    | none =>
      rw [nearbyStep_none_eq _ _ (by rw [harr1k]; exact hl)
        (by rw [hdonor]; exact hd), harr1k]
    | some jd =>
      obtain ⟨j, d⟩ := jd
      rw [nearbyStep_some_eq _ _ j d (by rw [harr1k]; exact hl)
        (by rw [hdonor]; exact hd),
        getD_set_self _ _ _ (by rw [harr1len]; exact hk), harr1k,
        (harr1pt j).2.2.2.1]

/-- C8: nearby-label inference runs after indexing and never perturbs the
list: the length is kept, every field except `NearbyLabel` of every element
is unchanged (`Index` values and order included); an element with a
non-empty trimmed label is untouched; an element with an empty label is
untouched when no donor qualifies (its `NearbyLabel` stays as it was, i.e.
empty in the pipeline, which never sets it before this pass), and otherwise
receives exactly the label of a qualifying donor at minimal center distance
(within 220pt, squared comparison), every other field unchanged. -/
theorem addNearbyLabels_spec : ∀ (es : List Element),
    (addNearbyLabels es).length = es.length ∧
    (∀ k, eqExceptNearby ((addNearbyLabels es).getD k default) (es.getD k default)) ∧
    (∀ k, k < es.length → trimSpace (es.getD k default).Label ≠ [] →
      (addNearbyLabels es).getD k default = es.getD k default) ∧
    (∀ k, k < es.length → trimSpace (es.getD k default).Label = [] →
      ((¬ ∃ j, donorOK es k j) →
        (addNearbyLabels es).getD k default = es.getD k default) ∧
      ((∃ j, donorOK es k j) → ∃ j, donorOK es k j ∧
        (∀ j2, donorOK es k j2 →
          distSq (es.getD k default).Center (es.getD j default).Center ≤
            distSq (es.getD k default).Center (es.getD j2 default).Center) ∧
        (addNearbyLabels es).getD k default =
          { es.getD k default with NearbyLabel := (es.getD j default).Label })) := by
  intro es
  refine ⟨addNearbyLabels_length es, fun k => foldl_nearbyStep_eqExcept _ _ _, ?_, ?_⟩
  · intro k hk hl
    rw [addNearbyLabels_getD es k hk, if_pos hl]
  · intro k hk hl
    have hnl : ¬ trimSpace (es.getD k default).Label ≠ [] := by rw [hl]; simp
    constructor
    · intro hno
      rw [addNearbyLabels_getD es k hk, if_neg hnl]
      cases hd : nearbyDonor es k with
      | none => rfl
      | some jd =>
        obtain ⟨j, d⟩ := jd
        exact absurd ⟨j, (nearbyDonor_some_spec es k j d hd).1⟩ hno
    · intro hex
      cases hd : nearbyDonor es k with
      | none =>
        obtain ⟨j, hj⟩ := hex
        exact absurd hj (nearbyDonor_none_spec es k hd j)
      | some jd =>
        obtain ⟨j, d⟩ := jd
        obtain ⟨hOK, hdist, hopt⟩ := nearbyDonor_some_spec es k j d hd
        refine ⟨j, hOK, fun j2 h2 => by rw [← hdist]; exact hopt j2 h2, ?_⟩
        rw [addNearbyLabels_getD es k hk, if_neg hnl, hd]

/-- A label-less text field at the origin (concrete input of the C8
witness). -/
def nearbyFld : Element :=
  { Index := 1, ID := "fld".toList, Role := "TextField".toList, Label := [],
    Value := [], NearbyLabel := [], Enabled := true, Focused := false,
    Visible := true, Offscreen := false, Frame := ⟨0, 0, 10, 10, "pt".toList⟩,
    Center := ⟨0, 0, "pt".toList⟩, Source := ⟨"idb".toList, "describe-all".toList⟩,
    order := 1 }

/-- A visible labelled element 100pt below it (concrete input of the C8
witness). -/
def nearbyLbl : Element :=
  { Index := 2, ID := "lbl".toList, Role := "StaticText".toList,
    Label := "Phone".toList, Value := [], NearbyLabel := [], Enabled := true,
    Focused := false, Visible := true, Offscreen := false,
    Frame := ⟨0, 95, 10, 10, "pt".toList⟩, Center := ⟨0, 100, "pt".toList⟩,
    Source := ⟨"idb".toList, "describe-all".toList⟩, order := 2 }

instance (es : List Element) (i j : Nat) : Decidable (donorOK es i j) := by
  unfold donorOK
  exact inferInstance

/-- Witness for C8: the label-less element receives the label of the
visible "Phone" element 100pt away, every other field unchanged. -/
theorem addNearbyLabels_spec_model :
    ∃ j, donorOK [nearbyFld, nearbyLbl] 0 j ∧
      (∀ j2, donorOK [nearbyFld, nearbyLbl] 0 j2 →
        distSq ([nearbyFld, nearbyLbl].getD 0 default).Center
            ([nearbyFld, nearbyLbl].getD j default).Center ≤
          distSq ([nearbyFld, nearbyLbl].getD 0 default).Center
            ([nearbyFld, nearbyLbl].getD j2 default).Center) ∧
      (addNearbyLabels [nearbyFld, nearbyLbl]).getD 0 default =
        { [nearbyFld, nearbyLbl].getD 0 default with
          NearbyLabel := ([nearbyFld, nearbyLbl].getD j default).Label } :=
  ((addNearbyLabels_spec [nearbyFld, nearbyLbl]).2.2.2 0 (by decide)
    (by decide)).2 ⟨1, by decide, by decide, by decide, by decide, by
      show distSq ([nearbyFld, nearbyLbl].getD 0 default).Center
        ([nearbyFld, nearbyLbl].getD 1 default).Center ≤ 48400
      norm_num [List.getD_cons_zero, List.getD_cons_succ, nearbyFld, nearbyLbl,
        distSq]⟩

lemma assignIndicesFrom_length : ∀ (l : List Element) (i : Int),
    (assignIndicesFrom i l).length = l.length := by
  intro l
  induction l with
  | nil => intro i; rfl
  | cons e rest ih =>
    intro i
    simp only [assignIndicesFrom, List.length_cons, ih (i + 1)]

lemma assignIndicesFrom_map : ∀ (l : List Element) (i : Int),
    (assignIndicesFrom i l).map (fun e => e.Index) =
      (List.range l.length).map (fun (k : ℕ) => i + (k : Int) + 1) := by
  intro l
  induction l with
  | nil => intro i; rfl
  | cons e rest ih =>
    intro i
    show ({ e with Index := i + 1 } :: assignIndicesFrom (i + 1) rest).map
        (fun e => e.Index) =
      (List.range (rest.length + 1)).map (fun (k : ℕ) => i + (k : Int) + 1)
    rw [List.map_cons, ih (i + 1), List.range_succ_eq_map, List.map_cons,
      List.map_map]
    congr 1
    · norm_num
    · apply List.map_congr_left
      intro a _
      show i + 1 + (a : Int) + 1 = i + ((Nat.succ a : ℕ) : Int) + 1
      push_cast
      ring

lemma addNearbyLabels_map_index (es : List Element) :
    (addNearbyLabels es).map (fun e => e.Index) = es.map (fun e => e.Index) := by
  apply List.ext_getElem
  · simp [addNearbyLabels_length]
  · intro n h1 h2
    simp only [List.getElem_map]
    have hn1 : n < (addNearbyLabels es).length := by simpa using h1
    have hn2 : n < es.length := by simpa using h2
    have hIdx : ((addNearbyLabels es).getD n default).Index =
        (es.getD n default).Index :=
      (foldl_nearbyStep_eqExcept (List.range es.length) es n).1
    rw [List.getD_eq_getElem es default hn2,
      List.getD_eq_getElem _ default hn1] at hIdx
    exact hIdx

/-- C5: for every raw snapshot and every normalizer option set, the element
list produced by `normalizeElements` carries `Index` values that are exactly
1..N in list order — a dense assignment with no gaps or duplicates. -/
theorem normalizeElements_indices : ∀ (rawUI : RawValue) (opts : FrameOptions),
    (normalizeElements rawUI opts).1.map (fun e => e.Index) =
      (List.range (normalizeElements rawUI opts).1.length).map
        (fun (i : ℕ) => ((i : Int) + 1)) := by
  intro rawUI opts
  have key : ∀ (l : List Element),
      (addNearbyLabels (assignIndicesFrom 0 l)).map (fun e => e.Index) =
        (List.range (addNearbyLabels (assignIndicesFrom 0 l)).length).map
          (fun (i : ℕ) => (i : Int) + 1) := by
    intro l
    rw [addNearbyLabels_map_index, assignIndicesFrom_map, addNearbyLabels_length,
      assignIndicesFrom_length]
    apply List.map_congr_left
    intro a _
    ring
  exact key _

/-- main.go `frameUISample`: one raw tree, its normalized elements and
counts, and the element-set hash. -/
structure FrameUISample where
  Raw : RawValue
  Elements : List Element
  AllCount : Nat
  InteractiveCount : Nat
  Hash : GoStr

/-- main.go `allStringsEqual`: vacuously true up to one element, else every
later element must equal the first. -/
def allStringsEqual (values : List GoStr) : Bool :=
  match values with
  | [] => true
  | base :: rest => rest.all (fun v => v == base)

/-- The `FRAME_UNSTABLE` failure of main.go `captureStableUISamples` with
its structured details: the hash list, the sample count and the interval. -/
structure FrameUnstable where
  Code : String
  Message : String
  Hashes : List GoStr
  Samples : Nat
  Interval : Int
deriving Repr

/-- main.go `captureStableUISamples` for a run in which every capture
succeeds (a capture error is returned as-is before stability is judged, and
the inter-sample sleep has no observable effect): take `StableSamples`
samples from the capture stream, then require all their hashes equal, else
fail with `FRAME_UNSTABLE` carrying the hashes, the sample count and the
interval. -/
def captureStableUISamples (capture : Nat → FrameUISample) (opts : FrameOptions) :
    Except FrameUnstable (List FrameUISample) :=
  if allStringsEqual (((List.range opts.StableSamples).map capture).map
      (fun s => s.Hash)) then
    .ok ((List.range opts.StableSamples).map capture)
  else
    .error ⟨"FRAME_UNSTABLE", "ui tree changed during stable sampling",
      ((List.range opts.StableSamples).map capture).map (fun s => s.Hash),
      opts.StableSamples, opts.StableInterval⟩

lemma allStringsEqual_iff (values : List GoStr) :
    allStringsEqual values = true ↔ ∀ a ∈ values, ∀ b ∈ values, a = b := by
  cases values with
  | nil => simp [allStringsEqual]
  | cons base rest =>
    simp only [allStringsEqual, List.all_eq_true, beq_iff_eq]
    constructor
    · intro h a ha b hb
      have key : ∀ x ∈ base :: rest, x = base := by
        intro x hx
        rcases List.mem_cons.mp hx with h2 | h2
        · exact h2
        · exact h x h2
      rw [key a ha, key b hb]
    · intro h v hv
      exact h v (List.mem_cons_of_mem _ hv) base (List.mem_cons_self _ _)

/-- C6: `allStringsEqual` is true exactly when all elements of the list are
equal (vacuously for length ≤ 1), and a stable capture with N ≥ 2 samples
succeeds exactly when all N per-sample hashes agree; any divergence yields
the `FRAME_UNSTABLE` error carrying the hash list, the sample count and the
interval. -/
theorem allStringsEqual_stable_spec :
    (∀ (values : List GoStr),
      allStringsEqual values = true ↔ ∀ a ∈ values, ∀ b ∈ values, a = b) ∧
    (∀ (capture : Nat → FrameUISample) (opts : FrameOptions),
      2 ≤ opts.StableSamples →
      ((∃ samples, captureStableUISamples capture opts = .ok samples) ↔
        ∀ i < opts.StableSamples, ∀ j < opts.StableSamples,
          (capture i).Hash = (capture j).Hash) ∧
      (¬ (∀ i < opts.StableSamples, ∀ j < opts.StableSamples,
          (capture i).Hash = (capture j).Hash) →
        captureStableUISamples capture opts =
          .error ⟨"FRAME_UNSTABLE", "ui tree changed during stable sampling",
            ((List.range opts.StableSamples).map capture).map (fun s => s.Hash),
            opts.StableSamples, opts.StableInterval⟩)) := by
  refine ⟨allStringsEqual_iff, ?_⟩
  intro capture opts _
  have hiff : allStringsEqual (((List.range opts.StableSamples).map capture).map
      (fun s => s.Hash)) = true ↔
      ∀ i < opts.StableSamples, ∀ j < opts.StableSamples,
        (capture i).Hash = (capture j).Hash := by
    rw [List.map_map, allStringsEqual_iff]
    constructor
    · intro h i hi j hj
      exact h _ (List.mem_map.mpr ⟨i, List.mem_range.mpr hi, rfl⟩)
        _ (List.mem_map.mpr ⟨j, List.mem_range.mpr hj, rfl⟩)
    · intro h a ha b hb
      obtain ⟨i, hi, hia⟩ := List.mem_map.mp ha
      obtain ⟨j, hj, hjb⟩ := List.mem_map.mp hb
      rw [← hia, ← hjb]
      exact h i (List.mem_range.mp hi) j (List.mem_range.mp hj)
  by_cases hall : allStringsEqual (((List.range opts.StableSamples).map capture).map
      (fun s => s.Hash)) = true
  · have hok : captureStableUISamples capture opts =
        .ok ((List.range opts.StableSamples).map capture) := by
      rw [captureStableUISamples, if_pos hall]
    exact ⟨⟨fun _ => hiff.mp hall, fun _ => ⟨_, hok⟩⟩,
      fun hne => absurd (hiff.mp hall) hne⟩
  · have herr : captureStableUISamples capture opts =
        .error ⟨"FRAME_UNSTABLE", "ui tree changed during stable sampling",
          ((List.range opts.StableSamples).map capture).map (fun s => s.Hash),
          opts.StableSamples, opts.StableInterval⟩ := by
      rw [captureStableUISamples, if_neg hall]
    refine ⟨⟨?_, fun hp => absurd (hiff.mpr hp) hall⟩, fun _ => herr⟩
    rintro ⟨samples, hs⟩
    rw [herr] at hs
    cases hs

/-- A fixed sample for the C6 witness. -/
def sampleA : FrameUISample := ⟨.null, [], 0, 0, "2b9c".toList⟩

/-- Frame options asking for 2 stability samples (C6 witness input). -/
def stableOpts : FrameOptions :=
  ⟨[], false, true, false, false, true, 2, 200000000, "reading".toList,
    "png".toList, 1, [], [], false⟩

/-- Witness for C6: an unchanging capture stream at N = 2 samples is judged
stable. -/
theorem allStringsEqual_stable_model :
    ∃ samples, captureStableUISamples (fun _ => sampleA) stableOpts =
      Except.ok samples :=
  ((allStringsEqual_stable_spec.2 (fun _ => sampleA) stableOpts (by decide)).1).mpr
    (fun i _ j _ => rfl)

/-- The repository unit test `TestPickElementByTextPrefersVisibleInteractive`
replayed on the embedding: of two enabled "Next" buttons, the visible one
wins the scored match. -/
lemma pickElementByText_prefers_visible :
    pickElementByText
      [⟨1, "hidden".toList, "Button".toList, "Next".toList, [], [], true, false,
        false, false, ⟨0, 0, 10, 10, "pt".toList⟩, ⟨5, 5, "pt".toList⟩,
        ⟨"idb".toList, "describe-all".toList⟩, 1⟩,
       ⟨2, "visible".toList, "Button".toList, "Next".toList, [], [], true, false,
        true, false, ⟨0, 20, 10, 10, "pt".toList⟩, ⟨5, 25, "pt".toList⟩,
        ⟨"idb".toList, "describe-all".toList⟩, 2⟩]
      "next".toList [] =
    Except.ok
      ⟨2, "visible".toList, "Button".toList, "Next".toList, [], [], true, false,
        true, false, ⟨0, 20, 10, 10, "pt".toList⟩, ⟨5, 25, "pt".toList⟩,
        ⟨"idb".toList, "describe-all".toList⟩, 2⟩ := by
  rfl
